import Mathlib

/-!
# BVH construction and traversal (`src/BVH.cpp`)

A shallow embedding of `BVHAccel::BVHAccel`, `BVHAccel::recursiveBuild`,
`BVHAccel::Intersect` and `BVHAccel::getIntersection`.

The headers declaring `Bounds3`, `Vector3f`, `Object`, `Ray`, `Intersection`
and the number types are not part of the source tree, so their operations
are taken as parameters (`Collab`).  Numbers are an arbitrary type `F` with an
arbitrary comparison `lt`; nothing about floating-point arithmetic is
assumed unless a theorem states it as a hypothesis.

Sizes are natural numbers.  The source indexes with `int`, so it is only
defined for fewer than `2 ^ 31` primitives; in that range
`objects.size() * i / B` (`i < 10`) does not wrap.
-/

namespace BVH

/-! ## Data model -/

/-- The collaborator `Vector3f`: three numbers. -/
structure Vector3f (F : Type) where
  x : F
  y : F
  z : F
  deriving DecidableEq

/-- The collaborator `Ray`: origin, direction and per-axis inverse direction. -/
structure Ray (F : Type) where
  origin : Vector3f F
  direction : Vector3f F
  direction_inv : Vector3f F
  deriving DecidableEq

/-- The collaborator `Intersection`: the hit flag, the distance and the
remaining hit data (coordinates, normal, object, material) as `info`. -/
structure Intersection (F M : Type) where
  happened : Bool
  distance : F
  info : M
  deriving DecidableEq

/-- The enumeration `SplitMethod`; `other` stands for any value that is
neither of the two enumerators. -/
inductive SplitMethod where
  | NAIVE
  | SAH
  | other (code : Int)
  deriving DecidableEq, Repr

/-- A value of type `BVHBuildNode*`: the null pointer, or a node with its
four fields. -/
inductive BVHBuildNode (Obj Box : Type) where
  | nullptr : BVHBuildNode Obj Box
  | mk (bounds : Box) (left right : BVHBuildNode Obj Box) (object : Option Obj) :
      BVHBuildNode Obj Box
  deriving DecidableEq

/-- What a call can do: return a value, stop at a failed `assert`,
dereference a null pointer, or still be running when the fuel is spent. -/
inductive Outcome (α : Type) where
  | ok (a : α) : Outcome α
  | assertFailed : Outcome α
  | nullDeref : Outcome α
  | fuelOut : Outcome α
  deriving DecidableEq

/-- The operations of the collaborators used by `BVH.cpp`. -/
structure Collab (Obj Box F M : Type) where
  /-- the number `0` -/
  zero : F
  /-- the literal `0.125` -/
  eighth : F
  /-- `std::numeric_limits<float>::infinity()` -/
  infinity : F
  /-- conversion of a count to a number -/
  ofNat : Nat → F
  add : F → F → F
  mul : F → F → F
  div : F → F → F
  /-- the comparison `a < b` on numbers -/
  lt : F → F → Bool
  /-- `Bounds3()` -/
  emptyBounds : Box
  /-- `Union(Bounds3, Bounds3)` -/
  Union : Box → Box → Box
  /-- `Union(Bounds3, Vector3f)` -/
  UnionP : Box → Vector3f F → Box
  Centroid : Box → Vector3f F
  maxExtent : Box → Int
  SurfaceArea : Box → F
  /-- `Bounds3::IntersectP(ray, invDir, dirIsNeg)` -/
  IntersectP : Box → Ray F → Vector3f F → Nat × Nat × Nat → Bool
  /-- `Object::getBounds` -/
  getBounds : Obj → Box
  /-- `Object::getIntersection` -/
  getIntersection : Obj → Ray F → Intersection F M
  /-- `std::sort(begin, end, comp)` -/
  sort : (Obj → Obj → Bool) → List Obj → List Obj
  /-- the distance stored by `Intersection()` -/
  defaultDistance : F
  /-- the other hit data stored by `Intersection()` -/
  defaultInfo : M

variable {Obj Box F M : Type}

namespace BVHBuildNode

/-- The test `node == nullptr`. -/
def isNull : BVHBuildNode Obj Box → Bool
  | nullptr => true
  | mk _ _ _ _ => false

/-- The access `node->bounds`; `none` when `node` is null. -/
def bounds? : BVHBuildNode Obj Box → Option Box
  | nullptr => none
  | mk b _ _ _ => some b

end BVHBuildNode

/-- Modelled from the spec: the header declaring `Intersection` is missing;
its default constructor yields the "no hit" record, `happened = false`, with
some distance and hit data. -/
def defaultIsect (C : Collab Obj Box F M) : Intersection F M :=
  { happened := false, distance := C.defaultDistance, info := C.defaultInfo }

/-- Modelled from the spec: the header declaring `BVHBuildNode` is missing;
a new node holds no object (`object` is present only on a leaf). -/
abbrev newNodeObject : Option Obj := none

/-- Modelled from the spec: the header declaring `BVHAccel` is missing; the
member `root` is absent (null) until the constructor assigns it. -/
abbrev initialRoot : BVHBuildNode Obj Box := .nullptr

/-! ## Builder -/

/-- The constant `B` of the SAH branch. -/
def B : Nat := 10

/-- The loops `b = Union(b, objects[k]->getBounds().Centroid())` starting
from `Bounds3()`. -/
def centroidUnion (C : Collab Obj Box F M) (objects : List Obj) : Box :=
  objects.foldl (fun b o => C.UnionP b (C.Centroid (C.getBounds o))) C.emptyBounds

/-- The `switch (dim)` with its three `std::sort` calls; any other `dim`
leaves the sequence as it is. -/
def sortObjects (C : Collab Obj Box F M) (dim : Int) (objects : List Obj) : List Obj :=
  if dim = 0 then
    C.sort (fun f1 f2 =>
      C.lt (C.Centroid (C.getBounds f1)).x (C.Centroid (C.getBounds f2)).x) objects
  else if dim = 1 then
    C.sort (fun f1 f2 =>
      C.lt (C.Centroid (C.getBounds f1)).y (C.Centroid (C.getBounds f2)).y) objects
  else if dim = 2 then
    C.sort (fun f1 f2 =>
      C.lt (C.Centroid (C.getBounds f1)).z (C.Centroid (C.getBounds f2)).z) objects
  else objects

/-- The position `objects.size() * i / B`. -/
def sahPos (objects : List Obj) (i : Nat) : Nat :=
  objects.length * i / B

/-- The body of the SAH loop up to `cost`, for candidate `i`. -/
def sahCost (C : Collab Obj Box F M) (SN : F) (objects : List Obj) (i : Nat) : F :=
  let pos := sahPos objects i
  let leftBounds := centroidUnion C (objects.take pos)
  let rightBounds := centroidUnion C (objects.drop pos)
  let SA := C.SurfaceArea leftBounds
  let SB := C.SurfaceArea rightBounds
  C.add C.eighth
    (C.div (C.add (C.mul (C.ofNat pos) SA) (C.mul (C.ofNat (objects.length - pos)) SB)) SN)

/-- One iteration of the SAH loop on the state `(minCost, mincostIndex)`. -/
def sahStep (C : Collab Obj Box F M) (SN : F) (objects : List Obj)
    (st : F × Nat) (i : Nat) : F × Nat :=
  let cost := sahCost C SN objects i
  if C.lt cost st.1 then (cost, i) else st

/-- The loop `for (int i = 1; i < B; i++)` from `(infinity, 0)`. -/
def sahSearch (C : Collab Obj Box F M) (SN : F) (objects : List Obj) : F × Nat :=
  (List.range' 1 (B - 1)).foldl (sahStep C SN objects) (C.infinity, 0)

/-- The value of `mincostIndex` after the loop. -/
def mincostIndex (C : Collab Obj Box F M) (centroidBounds : Box) (objects : List Obj) : Nat :=
  (sahSearch C (C.SurfaceArea centroidBounds) objects).2

/-- The offset of `middling` from `objects.begin()`; `none` is the failed
`assert(false && "Unknown BVH split method")`. -/
def splitIndex (C : Collab Obj Box F M) (splitMethod : SplitMethod)
    (centroidBounds : Box) (objects : List Obj) : Option Nat :=
  match splitMethod with
  | .NAIVE => some (objects.length / 2)
  | .SAH => some (objects.length * mincostIndex C centroidBounds objects / B)
  | .other _ => none

/-- The tail of `recursiveBuild`: both children are built, left first, then
`node->bounds = Union(node->left->bounds, node->right->bounds)`. -/
def joinChildren (C : Collab Obj Box F M)
    (l r : Outcome (BVHBuildNode Obj Box)) : Outcome (BVHBuildNode Obj Box) :=
  match l with
  | .ok left =>
    match r with
    | .ok right =>
      match left.bounds?, right.bounds? with
      | some lb, some rb => .ok (.mk (C.Union lb rb) left right newNodeObject)
      | _, _ => .nullDeref
    | .assertFailed => .assertFailed
    | .nullDeref => .nullDeref
    | .fuelOut => .fuelOut
  | .assertFailed => .assertFailed
  | .nullDeref => .nullDeref
  | .fuelOut => .fuelOut

/-- The function `BVHAccel::recursiveBuild`, with `fuel` bounding the depth of
the recursion.  The local `bounds` of lines 37-39 is never read and is left
out.  The `assert` of line 120 compares the size with the sizes of a
sequence cut in two at `middling` and cannot fail. -/
def recursiveBuild (C : Collab Obj Box F M) (splitMethod : SplitMethod) :
    Nat → List Obj → Outcome (BVHBuildNode Obj Box)
  | 0, _ => .fuelOut
  | fuel + 1, objects =>
    match objects with
    | [o] => .ok (.mk (C.getBounds o) .nullptr .nullptr (some o))
    | [a, b] =>
      joinChildren C (recursiveBuild C splitMethod fuel [a])
        (recursiveBuild C splitMethod fuel [b])
    | _ =>
      let centroidBounds := centroidUnion C objects
      let dim := C.maxExtent centroidBounds
      let sorted := sortObjects C dim objects
      match splitIndex C splitMethod centroidBounds sorted with
      | none => .assertFailed
      | some mid =>
        joinChildren C (recursiveBuild C splitMethod fuel (sorted.take mid))
          (recursiveBuild C splitMethod fuel (sorted.drop mid))

/-- The sequence `objects` of the `else` branch after the `switch (dim)`:
sorted along `centroidBounds.maxExtent()`. -/
def sortedObjects (C : Collab Obj Box F M) (objects : List Obj) : List Obj :=
  sortObjects C (C.maxExtent (centroidUnion C objects)) objects

/-- The `else` branch of `recursiveBuild` on the sequence `objects`. -/
def splitBuild (C : Collab Obj Box F M) (sm : SplitMethod) (fuel : Nat)
    (objects : List Obj) : Outcome (BVHBuildNode Obj Box) :=
  match splitIndex C sm (centroidUnion C objects) (sortedObjects C objects) with
  | none => .assertFailed
  | some mid =>
    joinChildren C (recursiveBuild C sm fuel ((sortedObjects C objects).take mid))
      (recursiveBuild C sm fuel ((sortedObjects C objects).drop mid))

/-- The class `BVHAccel`. -/
structure BVHAccel (Obj Box : Type) where
  root : BVHBuildNode Obj Box
  maxPrimsInNode : Int
  splitMethod : SplitMethod
  primitives : List Obj
  deriving DecidableEq

/-- The constructor `BVHAccel::BVHAccel`; the timing output is left out. -/
def BVHAccel.construct (C : Collab Obj Box F M) (fuel : Nat) (p : List Obj)
    (maxPrimsInNode : Int) (method : SplitMethod) : Outcome (BVHAccel Obj Box) :=
  if p.isEmpty then
    .ok { root := initialRoot, maxPrimsInNode := min 255 maxPrimsInNode,
          splitMethod := method, primitives := p }
  else
    match recursiveBuild C method fuel p with
    | .ok root =>
      .ok { root := root, maxPrimsInNode := min 255 maxPrimsInNode,
            splitMethod := method, primitives := p }
    | .assertFailed => .assertFailed
    | .nullDeref => .nullDeref
    | .fuelOut => .fuelOut

/-! ## Traverser -/

/-- The array `direction_inv_neg`. -/
def dirIsNeg (C : Collab Obj Box F M) (ray : Ray F) : Nat × Nat × Nat :=
  ((if C.lt ray.direction.x C.zero then 1 else 0),
   (if C.lt ray.direction.y C.zero then 1 else 0),
   (if C.lt ray.direction.z C.zero then 1 else 0))

/-- The local `result` of `getIntersection` after `result.happened = false`. -/
def missResult (C : Collab Obj Box F M) : Intersection F M :=
  { defaultIsect C with happened := false }

/-- Lines 162-167 of `getIntersection`: the choice between the results of the
two children. -/
def mergeHits (C : Collab Obj Box F M) (hitLeft hitRight : Intersection F M) :
    Intersection F M :=
  if !hitLeft.happened && !hitRight.happened then missResult C
  else if !hitRight.happened || C.lt hitLeft.distance hitRight.distance then hitLeft
  else hitRight

/-- The function `BVHAccel::getIntersection`; `none` is the dereference of a
null `node->object`. -/
def getIntersection (C : Collab Obj Box F M) :
    BVHBuildNode Obj Box → Ray F → Option (Intersection F M)
  | .nullptr, _ => some (missResult C)
  | .mk bounds left right object, ray =>
    if !C.IntersectP bounds ray ray.direction_inv (dirIsNeg C ray) then
      some (missResult C)
    else if left.isNull && right.isNull then
      match object with
      | some o => some (C.getIntersection o ray)
      | none => none
    else
      match getIntersection C left ray with
      | none => none
      | some hitLeft =>
        match getIntersection C right ray with
        | none => none
        | some hitRight => some (mergeHits C hitLeft hitRight)

/-- The function `BVHAccel::Intersect`. -/
def Intersect (C : Collab Obj Box F M) (acc : BVHAccel Obj Box) (ray : Ray F) :
    Option (Intersection F M) :=
  if acc.root.isNull then some (defaultIsect C)
  else getIntersection C acc.root ray

/-! ## Properties of trees -/

/-- The primitives held by the leaves (nodes with both children null), from
left to right. -/
def leafObjects : BVHBuildNode Obj Box → List Obj
  | .nullptr => []
  | .mk _ l r o => if l.isNull && r.isNull then o.toList else leafObjects l ++ leafObjects r

/-- Every node below a non-null pointer is a leaf holding one of `objs`, or
has two non-null children. -/
def ShapeInv (objs : List Obj) : BVHBuildNode Obj Box → Prop
  | .nullptr => False
  | .mk _ l r o =>
    (l = .nullptr ∧ r = .nullptr ∧ ∃ p ∈ objs, o = some p) ∨
    (l ≠ .nullptr ∧ r ≠ .nullptr ∧ ShapeInv objs l ∧ ShapeInv objs r)

/-- Every leaf carries the bounds of its primitive and every other node the
union of the bounds of its two children. -/
def BoundsInv (C : Collab Obj Box F M) : BVHBuildNode Obj Box → Prop
  | .nullptr => True
  | .mk b l r o =>
    (if l.isNull && r.isNull then ∃ p, o = some p ∧ b = C.getBounds p
     else ∃ lb rb, l.bounds? = some lb ∧ r.bounds? = some rb ∧ b = C.Union lb rb) ∧
    BoundsInv C l ∧ BoundsInv C r

/-- The box test of `getIntersection` on the box `b`. -/
def accepts (C : Collab Obj Box F M) (ray : Ray F) (b : Box) : Bool :=
  C.IntersectP b ray ray.direction_inv (dirIsNeg C ray)

/-- Whether the primitive `p` alone reports a hit. -/
def hits (C : Collab Obj Box F M) (ray : Ray F) (p : Obj) : Bool :=
  (C.getIntersection p ray).happened

/-- The distance in the record the primitive `p` alone returns. -/
def hitDist (C : Collab Obj Box F M) (ray : Ray F) (p : Obj) : F :=
  (C.getIntersection p ray).distance

/-- The box test accepts a union as soon as it accepts one of the two boxes. -/
def BoxTestMonotone (C : Collab Obj Box F M) (ray : Ray F) : Prop :=
  ∀ a b : Box, accepts C ray a = true ∨ accepts C ray b = true →
    accepts C ray (C.Union a b) = true

/-- The box test accepts the bounds of every primitive of `objs` that reports
a hit. -/
def BoxEnclosesHit (C : Collab Obj Box F M) (ray : Ray F) (objs : List Obj) : Prop :=
  ∀ p ∈ objs, hits C ray p = true → accepts C ray (C.getBounds p) = true

/-- No miss record (the default record, or the record of a primitive of
`objs` that reports no hit) carries a distance below the distance of a hit. -/
def MissNotNearer (C : Collab Obj Box F M) (ray : Ray F) (objs : List Obj) : Prop :=
  ∀ q ∈ objs, hits C ray q = true →
    C.lt C.defaultDistance (hitDist C ray q) = false ∧
    ∀ p ∈ objs, hits C ray p = false → C.lt (hitDist C ray p) (hitDist C ray q) = false

/-- On the distances of the hits among `objs` the comparison is a strict
weak order: irreflexive, transitive, and with a transitive complement. -/
def HitOrder (C : Collab Obj Box F M) (ray : Ray F) (objs : List Obj) : Prop :=
  (∀ p ∈ objs, hits C ray p = true → C.lt (hitDist C ray p) (hitDist C ray p) = false) ∧
  (∀ p ∈ objs, ∀ q ∈ objs, ∀ r ∈ objs,
    hits C ray p = true → hits C ray q = true → hits C ray r = true →
    C.lt (hitDist C ray p) (hitDist C ray q) = true →
    C.lt (hitDist C ray q) (hitDist C ray r) = true →
    C.lt (hitDist C ray p) (hitDist C ray r) = true) ∧
  (∀ p ∈ objs, ∀ q ∈ objs, ∀ r ∈ objs,
    hits C ray p = true → hits C ray q = true → hits C ray r = true →
    C.lt (hitDist C ray p) (hitDist C ray q) = false →
    C.lt (hitDist C ray q) (hitDist C ray r) = false →
    C.lt (hitDist C ray p) (hitDist C ray r) = false)

/-- The record `res` is the answer of a nearest-hit search over the
primitives `ls`: if it is a hit, it is the record of a hit primitive of `ls`
and no hit primitive of `ls` is nearer; if it is a miss, no primitive of `ls`
is hit and its distance is below no hit distance of `objs`. -/
def NearestAmong (C : Collab Obj Box F M) (ray : Ray F) (objs ls : List Obj)
    (res : Intersection F M) : Prop :=
  (res.happened = true →
    ∃ p ∈ ls, hits C ray p = true ∧ res = C.getIntersection p ray ∧
      ∀ q ∈ ls, hits C ray q = true → C.lt (hitDist C ray q) res.distance = false) ∧
  (res.happened = false →
    (∀ q ∈ ls, hits C ray q = false) ∧
    ∀ q ∈ objs, hits C ray q = true → C.lt res.distance (hitDist C ray q) = false)

/-- The contract of `std::sort` used here: the result is a rearrangement of
the input. -/
def SortPermutes (C : Collab Obj Box F M) : Prop :=
  ∀ (cmp : Obj → Obj → Bool) (l : List Obj), List.Perm (C.sort cmp l) l

/-- A tree as `recursiveBuild` makes them, together with its leaf
primitives from left to right. -/
inductive Built (C : Collab Obj Box F M) : BVHBuildNode Obj Box → List Obj → Prop where
  | leaf (o : Obj) : Built C (.mk (C.getBounds o) .nullptr .nullptr (some o)) [o]
  | node {l r : BVHBuildNode Obj Box} {lb rb : Box} {ls rs : List Obj} :
      Built C l ls → Built C r rs → l.bounds? = some lb → r.bounds? = some rb →
      Built C (.mk (C.Union lb rb) l r none) (ls ++ rs)

/-! ## A small world for running the code

Horizontal segments in the plane, seen by rays that fall straight down from
`(origin.x, 0)`: a ray meets a segment when its abscissa lies in the
segment's span, at a distance equal to the segment's depth. -/

/-- A horizontal segment `[lo, hi]` at depth `depth`; only a segment that
faces up (`front`) can be hit. -/
structure Segment where
  lo : Int
  hi : Int
  depth : Int
  front : Bool
  deriving DecidableEq, Repr

/-- Segments with interval boxes and integer numbers.  `missDist` is the
distance a segment stores in the record it returns for a miss, `dflt` the
distance stored by `Intersection()`, and `pad` the amount by which
`getBounds` is narrower than the segment at each end (`0` for a tight box). -/
def segCollab (missDist dflt pad : Int) :
    Collab Segment (Option (Int × Int)) Int (Option Segment) where
  zero := 0
  eighth := 0
  infinity := 1000000
  ofNat := fun n => (n : Int)
  add := fun a b => a + b
  mul := fun a b => a * b
  div := fun a b => a / b
  lt := fun a b => decide (a < b)
  emptyBounds := none
  Union := fun a b =>
    match a, b with
    | none, b => b
    | a, none => a
    | some (l1, h1), some (l2, h2) => some (min l1 l2, max h1 h2)
  UnionP := fun a v =>
    match a with
    | none => some (v.x, v.x)
    | some (l1, h1) => some (min l1 v.x, max h1 v.x)
  Centroid := fun b =>
    match b with
    | none => ⟨0, 0, 0⟩
    | some (l, h) => ⟨(l + h) / 2, 0, 0⟩
  maxExtent := fun _ => 0
  SurfaceArea := fun b =>
    match b with
    | none => 0
    | some (l, h) => h - l
  IntersectP := fun b ray _ _ =>
    match b with
    | none => false
    | some (l, h) => decide (l ≤ ray.origin.x) && decide (ray.origin.x ≤ h)
  getBounds := fun s => some (s.lo + pad, s.hi - pad)
  getIntersection := fun s ray =>
    if s.front && decide (s.lo ≤ ray.origin.x) && decide (ray.origin.x ≤ s.hi) then
      { happened := true, distance := s.depth, info := some s }
    else { happened := false, distance := missDist, info := none }
  sort := fun cmp l => l.insertionSort (fun a b => cmp b a = false)
  defaultDistance := dflt
  defaultInfo := none

/-- The ray falling from abscissa `x`. -/
def downRay (x : Int) : Ray Int :=
  { origin := ⟨x, 0, 0⟩, direction := ⟨0, -1, 0⟩, direction_inv := ⟨0, -1, 0⟩ }

/-- The world in which every miss record carries the distance `1000000`. -/
def segWorld : Collab Segment (Option (Int × Int)) Int (Option Segment) :=
  segCollab 1000000 1000000 0

/-- The world in which a segment's miss record carries the distance `0`. -/
def zeroMissWorld : Collab Segment (Option (Int × Int)) Int (Option Segment) :=
  segCollab 0 1000000 0

/-- The world in which the box of a segment is one unit short at each end. -/
def narrowBoxWorld : Collab Segment (Option (Int × Int)) Int (Option Segment) :=
  segCollab 1000000 1000000 1

def segA : Segment := ⟨0, 2, 5, true⟩
def segB : Segment := ⟨10, 12, 3, true⟩
def segC : Segment := ⟨4, 6, 7, true⟩
def segD : Segment := ⟨1, 11, 9, true⟩
/-- A wide segment that faces down: its box is crossed but it is never hit. -/
def segBack : Segment := ⟨0, 12, 1, false⟩

/-- The leaf for the segment `s`. -/
def segLeaf (s : Segment) : BVHBuildNode Segment (Option (Int × Int)) :=
  .mk (some (s.lo, s.hi)) .nullptr .nullptr (some s)

/-- The tree of the SAH build over `[segA, segB, segC]`. -/
def segTreeSAH : BVHBuildNode Segment (Option (Int × Int)) :=
  .mk (some (0, 12))
    (.mk (some (0, 6)) (segLeaf segA) (segLeaf segC) none) (segLeaf segB) none

/-- The tree of the median build over `[segA, segB, segC]`. -/
def segTree3 : BVHBuildNode Segment (Option (Int × Int)) :=
  .mk (some (0, 12)) (segLeaf segA)
    (.mk (some (4, 12)) (segLeaf segC) (segLeaf segB) none) none

/-! ## A world with the special values of floating-point arithmetic

Points in space with boxes given by two corners.  Numbers are exact
fractions together with the infinities and NaN, combined by the IEEE rules
for special values; rounding and the sign of zero are not modelled. -/

/-- A number: NaN, an infinity, or the fraction `num / den` with `den ≥ 1`. -/
inductive Fp where
  | nan : Fp
  | ninf : Fp
  | pinf : Fp
  | fin (num : Int) (den : Nat) : Fp
  deriving DecidableEq, Repr

namespace Fp

def neg : Fp → Fp
  | nan => nan
  | ninf => pinf
  | pinf => ninf
  | fin n d => fin (-n) d

def add : Fp → Fp → Fp
  | nan, _ => nan
  | _, nan => nan
  | pinf, ninf => nan
  | ninf, pinf => nan
  | pinf, _ => pinf
  | _, pinf => pinf
  | ninf, _ => ninf
  | _, ninf => ninf
  | fin a d, fin b e => fin (a * e + b * d) (d * e)

def sub (a b : Fp) : Fp := add a (neg b)

/-- The sign `-1`, `0` or `1` of a number that is not NaN. -/
def sign : Fp → Int
  | nan => 0
  | ninf => -1
  | pinf => 1
  | fin n _ => Int.sign n

/-- The infinity of sign `s`, NaN for `s = 0`. -/
def infOfSign (s : Int) : Fp :=
  if s = 0 then nan else if 0 < s then pinf else ninf

def mul : Fp → Fp → Fp
  | nan, _ => nan
  | _, nan => nan
  | fin a d, fin b e => fin (a * b) (d * e)
  | x, y => infOfSign (sign x * sign y)

def div : Fp → Fp → Fp
  | nan, _ => nan
  | _, nan => nan
  | fin a d, fin b e =>
    if b = 0 then infOfSign (Int.sign a)
    else if 0 < b then fin (a * e) (d * b.natAbs)
    else fin (-(a * e)) (d * b.natAbs)
  | fin _ _, _ => fin 0 1
  | x, fin b _ => infOfSign (sign x * (if b < 0 then -1 else 1))
  | _, _ => nan

def lt : Fp → Fp → Bool
  | nan, _ => false
  | _, nan => false
  | ninf, ninf => false
  | ninf, _ => true
  | _, ninf => false
  | pinf, _ => false
  | fin _ _, pinf => true
  | fin a d, fin b e => decide (a * e < b * d)

/-- The comparison `a <= b`: false as soon as one side is NaN. -/
def le : Fp → Fp → Bool
  | nan, _ => false
  | _, nan => false
  | ninf, _ => true
  | _, ninf => false
  | _, pinf => true
  | pinf, _ => false
  | fin a d, fin b e => decide (a * e ≤ b * d)

/-- `std::min(a, b)`. -/
def min (a b : Fp) : Fp := if lt b a then b else a

/-- `std::max(a, b)`. -/
def max (a b : Fp) : Fp := if lt a b then b else a

end Fp

/-- A box given by its corners `pMin` and `pMax`. -/
structure FBox where
  pMin : Vector3f Fp
  pMax : Vector3f Fp
  deriving DecidableEq

/-- A point primitive with integer coordinates. -/
structure Dot where
  px : Int
  py : Int
  pz : Int
  deriving DecidableEq, Repr

namespace FBox

def Diagonal (b : FBox) : Vector3f Fp :=
  ⟨Fp.sub b.pMax.x b.pMin.x, Fp.sub b.pMax.y b.pMin.y, Fp.sub b.pMax.z b.pMin.z⟩

def UnionP (b : FBox) (p : Vector3f Fp) : FBox :=
  { pMin := ⟨Fp.min b.pMin.x p.x, Fp.min b.pMin.y p.y, Fp.min b.pMin.z p.z⟩,
    pMax := ⟨Fp.max b.pMax.x p.x, Fp.max b.pMax.y p.y, Fp.max b.pMax.z p.z⟩ }

def Union (a b : FBox) : FBox :=
  { pMin := ⟨Fp.min a.pMin.x b.pMin.x, Fp.min a.pMin.y b.pMin.y, Fp.min a.pMin.z b.pMin.z⟩,
    pMax := ⟨Fp.max a.pMax.x b.pMax.x, Fp.max a.pMax.y b.pMax.y, Fp.max a.pMax.z b.pMax.z⟩ }

def Centroid (b : FBox) : Vector3f Fp :=
  ⟨Fp.add (Fp.mul (.fin 1 2) b.pMin.x) (Fp.mul (.fin 1 2) b.pMax.x),
   Fp.add (Fp.mul (.fin 1 2) b.pMin.y) (Fp.mul (.fin 1 2) b.pMax.y),
   Fp.add (Fp.mul (.fin 1 2) b.pMin.z) (Fp.mul (.fin 1 2) b.pMax.z)⟩

def SurfaceArea (b : FBox) : Fp :=
  let d := b.Diagonal
  Fp.mul (.fin 2 1) (Fp.add (Fp.add (Fp.mul d.x d.y) (Fp.mul d.x d.z)) (Fp.mul d.y d.z))

def maxExtent (b : FBox) : Int :=
  let d := b.Diagonal
  if Fp.lt d.y d.x && Fp.lt d.z d.x then 0
  else if Fp.lt d.z d.y then 1
  else 2

end FBox

/-- The world of point primitives.  The empty box has corners at
`+infinity` and `-infinity`; the surface area of a box with diagonal `d` is
`2 (d.x d.y + d.x d.z + d.y d.z)`.  Rays play no part in construction: no
ray meets a point. -/
def fpWorld : Collab Dot FBox Fp Unit where
  zero := .fin 0 1
  eighth := .fin 1 8
  infinity := .pinf
  ofNat := fun n => .fin n 1
  add := Fp.add
  mul := Fp.mul
  div := Fp.div
  lt := Fp.lt
  emptyBounds := { pMin := ⟨.pinf, .pinf, .pinf⟩, pMax := ⟨.ninf, .ninf, .ninf⟩ }
  Union := FBox.Union
  UnionP := FBox.UnionP
  Centroid := FBox.Centroid
  maxExtent := FBox.maxExtent
  SurfaceArea := FBox.SurfaceArea
  IntersectP := fun _ _ _ _ => false
  getBounds := fun p =>
    { pMin := ⟨.fin p.px 1, .fin p.py 1, .fin p.pz 1⟩,
      pMax := ⟨.fin p.px 1, .fin p.py 1, .fin p.pz 1⟩ }
  getIntersection := fun _ _ => { happened := false, distance := .pinf, info := () }
  sort := fun cmp l => l.insertionSort (fun a b => cmp b a = false)
  defaultDistance := .pinf
  defaultInfo := ()

/-- The candidate costs of the SAH loop on `objects`, for `i = 1, ..., 9`. -/
def costTable (C : Collab Obj Box F M) (objects : List Obj) : List F :=
  (List.range' 1 (B - 1)).map
    (sahCost C (C.SurfaceArea (centroidUnion C objects)) (sortedObjects C objects))

/-- The comparison `lt` is a strict weak order on the values listed in `S`:
irreflexive, transitive, and with a transitive complement. -/
def StrictWeakOn (lt : F → F → Bool) (S : List F) : Prop :=
  (∀ a ∈ S, lt a a = false) ∧
  (∀ a ∈ S, ∀ b ∈ S, ∀ c ∈ S, lt a b = true → lt b c = true → lt a c = true) ∧
  (∀ a ∈ S, ∀ b ∈ S, ∀ c ∈ S, lt a b = false → lt b c = false → lt a c = false)

/-- Candidate `i` is in play: its cost compares below the sentinel
`infinity` (a cost that is NaN or `infinity` itself does not). -/
def inPlay (C : Collab Obj Box F M) (SN : F) (objects : List Obj) (i : Nat) : Bool :=
  C.lt (sahCost C SN objects i) C.infinity

/-- The costs of the candidates in play among `i = 1, ..., 9`. -/
def costsInPlay (C : Collab Obj Box F M) (SN : F) (objects : List Obj) : List F :=
  ((List.range' 1 (B - 1)).filter (inPlay C SN objects)).map (sahCost C SN objects)

/-- A candidate that is not in play is below no candidate in play (true of a
cost that is NaN or `infinity`). -/
def OutOfPlaySkipped (C : Collab Obj Box F M) (SN : F) (objects : List Obj) : Prop :=
  ∀ i ∈ List.range' 1 (B - 1), ∀ j ∈ List.range' 1 (B - 1),
    inPlay C SN objects i = false → inPlay C SN objects j = true →
    C.lt (sahCost C SN objects i) (sahCost C SN objects j) = false

/-- The state of the SAH loop is right before candidate `k`: either no
candidate below `k` was in play, or the state holds a candidate in play
below which no candidate below `k` costs, and which is the first such. -/
def SahInv (C : Collab Obj Box F M) (SN : F) (objects : List Obj) (k : Nat)
    (st : F × Nat) : Prop :=
  (st = (C.infinity, 0) ∧ ∀ i, 1 ≤ i → i < k → inPlay C SN objects i = false) ∨
  (1 ≤ st.2 ∧ st.2 < k ∧ st.1 = sahCost C SN objects st.2 ∧
    inPlay C SN objects st.2 = true ∧
    (∀ i, 1 ≤ i → i < k →
      C.lt (sahCost C SN objects i) (sahCost C SN objects st.2) = false) ∧
    ∀ i, 1 ≤ i → i < st.2 → inPlay C SN objects i = true →
      C.lt (sahCost C SN objects st.2) (sahCost C SN objects i) = true)

/-- Three points spread along the y axis. -/
def yDots : List Dot := [⟨0, 5, 0⟩, ⟨1, 3, 0⟩, ⟨0, 1, 0⟩]

/-- Four points close together and one far away along the x axis. -/
def fiveDots : List Dot := [⟨100, 0, 0⟩, ⟨0, 0, 0⟩, ⟨1, 1, 0⟩, ⟨2, 0, 0⟩, ⟨3, 1, 0⟩]

/-- Three coincident points. -/
def threeDots : List Dot := [⟨0, 0, 0⟩, ⟨0, 0, 0⟩, ⟨0, 0, 0⟩]

/-- Three points on a line parallel to the x axis. -/
def dotsInLine : List Dot := [⟨0, 0, 0⟩, ⟨1, 0, 0⟩, ⟨2, 0, 0⟩]

/-- Nine points close together and one far away along the x axis. -/
def clusterDots : List Dot :=
  [⟨100, 1, 0⟩, ⟨0, 0, 0⟩, ⟨1, 1, 0⟩, ⟨2, 0, 0⟩, ⟨3, 1, 0⟩, ⟨4, 0, 0⟩, ⟨5, 1, 0⟩,
   ⟨6, 0, 0⟩, ⟨7, 1, 0⟩, ⟨8, 0, 0⟩]

/-! ## Further properties of trees and of the collaborators -/

/-- The coordinate of `v` on axis `dim` (`0`, `1`, `2` for `x`, `y`, `z`). -/
def axisCoord (v : Vector3f F) (dim : Int) : F :=
  if dim = 0 then v.x else if dim = 1 then v.y else v.z

/-- The centroid coordinate of the primitive `p` on axis `dim`: the key the
comparators of `std::sort` compare. -/
def centroidCoord (C : Collab Obj Box F M) (dim : Int) (p : Obj) : F :=
  axisCoord (C.Centroid (C.getBounds p)) dim

/-- The comparator handed to `std::sort` by the `case` for axis `dim`. -/
def axisCmp (C : Collab Obj Box F M) (dim : Int) (f1 f2 : Obj) : Bool :=
  C.lt (centroidCoord C dim f1) (centroidCoord C dim f2)

/-- The contract of `std::sort`: when the comparator is a strict weak
ordering of the elements of the sequence, no element of the result compares
below an earlier one. -/
def SortSorts (C : Collab Obj Box F M) : Prop :=
  ∀ (cmp : Obj → Obj → Bool) (l : List Obj), StrictWeakOn cmp l →
    (C.sort cmp l).Pairwise (fun p q => cmp q p = false)

/-- The tree a build returned; the null pointer if it did not return. -/
def treeOf : Outcome (BVHBuildNode Obj Box) → BVHBuildNode Obj Box
  | .ok t => t
  | _ => .nullptr

/-- The number of edges on the longest path from the node to a leaf. -/
def height : BVHBuildNode Obj Box → Nat
  | .nullptr => 0
  | .mk _ l r _ => if l.isNull && r.isNull then 0 else max (height l) (height r) + 1

/-- The number of leaves (nodes with both children null). -/
def leafCount : BVHBuildNode Obj Box → Nat
  | .nullptr => 0
  | .mk _ l r _ => if l.isNull && r.isNull then 1 else leafCount l + leafCount r

/-- The number of nodes that are not leaves. -/
def internalCount : BVHBuildNode Obj Box → Nat
  | .nullptr => 0
  | .mk _ l r _ =>
    if l.isNull && r.isNull then 0 else internalCount l + internalCount r + 1

/-- Every leaf holds an object. -/
def LeavesHoldOne : BVHBuildNode Obj Box → Prop
  | .nullptr => True
  | .mk _ l r o =>
    if l.isNull && r.isNull then o.isSome = true else LeavesHoldOne l ∧ LeavesHoldOne r

/-- The primitive `p` is held by a leaf of the tree and the box test
succeeds on the bounds of that leaf and of every node above it. -/
def AcceptedLeaf (C : Collab Obj Box F M) (ray : Ray F) (p : Obj) :
    BVHBuildNode Obj Box → Prop
  | .nullptr => False
  | .mk b l r o =>
    accepts C ray b = true ∧
    (if l.isNull && r.isNull then o = some p
     else AcceptedLeaf C ray p l ∨ AcceptedLeaf C ray p r)

/-- The root of the accelerator a construction returned, if it returned. -/
def rootOf : Outcome (BVHAccel Obj Box) → Outcome (BVHBuildNode Obj Box)
  | .ok acc => .ok acc.root
  | .assertFailed => .assertFailed
  | .nullDeref => .nullDeref
  | .fuelOut => .fuelOut

/-! ## A world of beads on a wire

Intervals on the x axis, seen by rays that run along the axis in the
positive direction from `origin.x`: such a ray crosses every box that is not
entirely behind it and meets a solid bead that starts at or after its
origin, at the distance to the start of the bead. -/

/-- A bead `[lo, hi]` on the wire; a bead that is not `solid` lets every ray
through. -/
structure Bead where
  lo : Int
  hi : Int
  solid : Bool
  deriving DecidableEq, Repr

/-- Beads with interval boxes and integer numbers; `missDist` is the
distance a bead stores in the record it returns for a miss. -/
def wireCollab (missDist : Int) : Collab Bead (Option (Int × Int)) Int (Option Bead) where
  zero := 0
  eighth := 0
  infinity := 1000000
  ofNat := fun n => (n : Int)
  add := fun a b => a + b
  mul := fun a b => a * b
  div := fun a b => a / b
  lt := fun a b => decide (a < b)
  emptyBounds := none
  Union := fun a b =>
    match a, b with
    | none, b => b
    | a, none => a
    | some (l1, h1), some (l2, h2) => some (min l1 l2, max h1 h2)
  UnionP := fun a v =>
    match a with
    | none => some (v.x, v.x)
    | some (l1, h1) => some (min l1 v.x, max h1 v.x)
  Centroid := fun b =>
    match b with
    | none => ⟨0, 0, 0⟩
    | some (l, h) => ⟨(l + h) / 2, 0, 0⟩
  maxExtent := fun _ => 0
  SurfaceArea := fun b =>
    match b with
    | none => 0
    | some (l, h) => h - l
  IntersectP := fun b ray _ _ =>
    match b with
    | none => false
    | some (_, h) => decide (ray.origin.x ≤ h)
  getBounds := fun s => some (s.lo, s.hi)
  getIntersection := fun s ray =>
    if s.solid && decide (ray.origin.x ≤ s.lo) then
      { happened := true, distance := s.lo - ray.origin.x, info := some s }
    else { happened := false, distance := missDist, info := none }
  sort := fun cmp l => l.insertionSort (fun a b => cmp b a = false)
  defaultDistance := 1000000
  defaultInfo := none

/-- The wire world in which every miss record carries the distance `1000000`. -/
def wireWorld : Collab Bead (Option (Int × Int)) Int (Option Bead) := wireCollab 1000000

/-- The wire world in which a bead's miss record carries the distance `0`. -/
def zeroMissWire : Collab Bead (Option (Int × Int)) Int (Option Bead) := wireCollab 0

/-- The ray along the wire from abscissa `x`. -/
def wireRay (x : Int) : Ray Int :=
  { origin := ⟨x, 0, 0⟩, direction := ⟨1, 0, 0⟩, direction_inv := ⟨1, 0, 0⟩ }

def beadA : Bead := ⟨0, 1, true⟩
def beadB : Bead := ⟨4, 5, true⟩
def beadC : Bead := ⟨8, 9, true⟩
/-- A bead in front of the others that lets every ray through. -/
def beadGlass : Bead := ⟨0, 1, false⟩

/-- The leaf for the bead `s`. -/
def beadLeaf (s : Bead) : BVHBuildNode Bead (Option (Int × Int)) :=
  .mk (some (s.lo, s.hi)) .nullptr .nullptr (some s)

/-! ## Unfolding the builder -/

theorem recursiveBuild_zero (C : Collab Obj Box F M) (sm : SplitMethod) (objects : List Obj) :
    recursiveBuild C sm 0 objects = .fuelOut := rfl

theorem recursiveBuild_single (C : Collab Obj Box F M) (sm : SplitMethod) (fuel : Nat)
    (o : Obj) :
    recursiveBuild C sm (fuel + 1) [o] =
      .ok (.mk (C.getBounds o) .nullptr .nullptr (some o)) := rfl

theorem recursiveBuild_pair (C : Collab Obj Box F M) (sm : SplitMethod) (fuel : Nat)
    (a b : Obj) :
    recursiveBuild C sm (fuel + 1) [a, b] =
      joinChildren C (recursiveBuild C sm fuel [a]) (recursiveBuild C sm fuel [b]) := rfl

theorem recursiveBuild_nil (C : Collab Obj Box F M) (sm : SplitMethod) (fuel : Nat) :
    recursiveBuild C sm (fuel + 1) [] = splitBuild C sm fuel [] := rfl

theorem recursiveBuild_many (C : Collab Obj Box F M) (sm : SplitMethod) (fuel : Nat)
    (a b c : Obj) (rest : List Obj) :
    recursiveBuild C sm (fuel + 1) (a :: b :: c :: rest) =
      splitBuild C sm fuel (a :: b :: c :: rest) := rfl

theorem recursiveBuild_of_three_le (C : Collab Obj Box F M) (sm : SplitMethod) (fuel : Nat)
    (objects : List Obj) (h : 3 ≤ objects.length) :
    recursiveBuild C sm (fuel + 1) objects = splitBuild C sm fuel objects := by
  match objects, h with
  | a :: b :: c :: rest, _ => rfl

theorem joinChildren_ok {C : Collab Obj Box F M} {x y : Outcome (BVHBuildNode Obj Box)}
    {t : BVHBuildNode Obj Box} (h : joinChildren C x y = .ok t) :
    ∃ l r lb rb, x = .ok l ∧ y = .ok r ∧ l.bounds? = some lb ∧ r.bounds? = some rb ∧
      t = .mk (C.Union lb rb) l r none := by
  cases x with
  | ok l =>
    cases y with
    | ok r =>
      cases hl : l.bounds? with
      | none => simp [joinChildren, hl] at h
      | some lb =>
        cases hr : r.bounds? with
        | none => simp [joinChildren, hl, hr] at h
        | some rb =>
          simp only [joinChildren, hl, hr, Outcome.ok.injEq] at h
          exact ⟨l, r, lb, rb, rfl, rfl, hl, hr, h.symm⟩
    | assertFailed => simp [joinChildren] at h
    | nullDeref => simp [joinChildren] at h
    | fuelOut => simp [joinChildren] at h
  | assertFailed => simp [joinChildren] at h
  | nullDeref => simp [joinChildren] at h
  | fuelOut => simp [joinChildren] at h

theorem sortObjects_perm {C : Collab Obj Box F M} (hs : SortPermutes C) (dim : Int)
    (objects : List Obj) : List.Perm (sortObjects C dim objects) objects := by
  unfold sortObjects
  split
  · exact hs _ _
  · split
    · exact hs _ _
    · split
      · exact hs _ _
      · exact List.Perm.refl _

theorem sortedObjects_perm {C : Collab Obj Box F M} (hs : SortPermutes C)
    (objects : List Obj) : List.Perm (sortedObjects C objects) objects :=
  sortObjects_perm hs _ _

theorem sortedObjects_length {C : Collab Obj Box F M} (hs : SortPermutes C)
    (objects : List Obj) : (sortedObjects C objects).length = objects.length :=
  (sortedObjects_perm hs objects).length_eq

theorem Built.bounds_isSome {C : Collab Obj Box F M} {t : BVHBuildNode Obj Box}
    {ls : List Obj} (h : Built C t ls) : ∃ b, t.bounds? = some b := by
  cases h with
  | leaf o => exact ⟨_, rfl⟩
  | node _ _ _ _ => exact ⟨_, rfl⟩

theorem Built.ne_nil {C : Collab Obj Box F M} {t : BVHBuildNode Obj Box}
    {ls : List Obj} (h : Built C t ls) : ls ≠ [] := by
  induction h with
  | leaf o => simp
  | node _ _ _ _ ih1 _ => simp [ih1]

theorem Built.ne_nullptr {C : Collab Obj Box F M} {t : BVHBuildNode Obj Box}
    {ls : List Obj} (h : Built C t ls) : t ≠ .nullptr := by
  cases h <;> simp

theorem Built.isNull {C : Collab Obj Box F M} {t : BVHBuildNode Obj Box}
    {ls : List Obj} (h : Built C t ls) : t.isNull = false := by
  cases h <;> rfl

/-- Whatever `recursiveBuild` returns is a well-formed tree; its leaves are a
rearrangement of the argument when sorting rearranges. -/
theorem recursiveBuild_built (C : Collab Obj Box F M) (sm : SplitMethod) :
    ∀ (fuel : Nat) (objects : List Obj) (t : BVHBuildNode Obj Box),
      recursiveBuild C sm fuel objects = .ok t →
      ∃ ls, Built C t ls ∧ (SortPermutes C → List.Perm ls objects) := by
  intro fuel
  induction fuel with
  | zero => intro objects t h; simp [recursiveBuild_zero] at h
  | succ fuel ih =>
    intro objects t h
    have key : ∀ (xs ys : List Obj),
        joinChildren C (recursiveBuild C sm fuel xs) (recursiveBuild C sm fuel ys) = .ok t →
        ∃ ls, Built C t ls ∧ (SortPermutes C → List.Perm ls (xs ++ ys)) := by
      intro xs ys hj
      obtain ⟨l, r, lb, rb, hl, hr, hlb, hrb, ht⟩ := joinChildren_ok hj
      obtain ⟨ls, bl, pl⟩ := ih xs l hl
      obtain ⟨rs, br, pr⟩ := ih ys r hr
      exact ⟨ls ++ rs, ht ▸ Built.node bl br hlb hrb, fun hs => (pl hs).append (pr hs)⟩
    have split : splitBuild C sm fuel objects = .ok t →
        ∃ ls, Built C t ls ∧ (SortPermutes C → List.Perm ls objects) := by
      intro hsb
      unfold splitBuild at hsb
      split at hsb
      · simp at hsb
      · rename_i mid _
        obtain ⟨ls, bl, pl⟩ := key _ _ hsb
        refine ⟨ls, bl, fun hs => (pl hs).trans ?_⟩
        rw [List.take_append_drop]
        exact sortedObjects_perm hs _
    match objects, h with
    | [], h => exact split (by rw [← recursiveBuild_nil]; exact h)
    | [o], h =>
      rw [recursiveBuild_single] at h
      injection h with h
      exact ⟨[o], h ▸ Built.leaf o, fun _ => List.Perm.refl _⟩
    | [a, b], h =>
      rw [recursiveBuild_pair] at h
      exact key [a] [b] h
    | a :: b :: c :: rest, h => exact split (by rw [← recursiveBuild_many]; exact h)

theorem Built.leafObjects_eq {C : Collab Obj Box F M} {t : BVHBuildNode Obj Box}
    {ls : List Obj} (h : Built C t ls) : leafObjects t = ls := by
  induction h with
  | leaf o => simp [leafObjects, BVHBuildNode.isNull]
  | node hl hr _ _ ih1 ih2 => simp [leafObjects, hl.isNull, ih1, ih2]

theorem Built.shapeInv {C : Collab Obj Box F M} {t : BVHBuildNode Obj Box}
    {ls : List Obj} (h : Built C t ls) (objs : List Obj) (hsub : ∀ p ∈ ls, p ∈ objs) :
    ShapeInv objs t := by
  induction h with
  | leaf o => exact Or.inl ⟨rfl, rfl, o, hsub o (by simp), rfl⟩
  | node hl hr _ _ ih1 ih2 =>
    exact Or.inr ⟨hl.ne_nullptr, hr.ne_nullptr,
      ih1 (fun p hp => hsub p (List.mem_append_left _ hp)),
      ih2 (fun p hp => hsub p (List.mem_append_right _ hp))⟩

theorem Built.boundsInv {C : Collab Obj Box F M} {t : BVHBuildNode Obj Box}
    {ls : List Obj} (h : Built C t ls) : BoundsInv C t := by
  induction h with
  | leaf o => simp [BoundsInv, BVHBuildNode.isNull]
  | node hl hr hlb hrb ih1 ih2 =>
    refine ⟨?_, ih1, ih2⟩
    simp only [hl.isNull, Bool.false_and, Bool.false_eq_true, if_false]
    exact ⟨_, _, hlb, hrb, rfl⟩

/-- Two children that were built join into an internal node. -/
theorem joinChildren_of_ok (C : Collab Obj Box F M) (sm : SplitMethod) {fuel : Nat}
    {xs ys : List Obj} {l r : BVHBuildNode Obj Box}
    (hl : recursiveBuild C sm fuel xs = .ok l) (hr : recursiveBuild C sm fuel ys = .ok r) :
    ∃ lb rb, l.bounds? = some lb ∧ r.bounds? = some rb ∧
      joinChildren C (recursiveBuild C sm fuel xs) (recursiveBuild C sm fuel ys) =
        .ok (.mk (C.Union lb rb) l r none) := by
  obtain ⟨ls, bl, _⟩ := recursiveBuild_built C sm fuel xs l hl
  obtain ⟨rs, br, _⟩ := recursiveBuild_built C sm fuel ys r hr
  obtain ⟨lb, hlb⟩ := bl.bounds_isSome
  obtain ⟨rb, hrb⟩ := br.bounds_isSome
  refine ⟨lb, rb, hlb, hrb, ?_⟩
  rw [hl, hr]
  simp [joinChildren, hlb, hrb]

theorem splitIndex_naive (C : Collab Obj Box F M) (cb : Box) (objects : List Obj) :
    splitIndex C .NAIVE cb objects = some (objects.length / 2) := rfl

/-- The median build returns on every non-empty sequence once the fuel
reaches the length of the sequence. -/
theorem naive_terminates (C : Collab Obj Box F M) (hs : SortPermutes C) :
    ∀ (fuel : Nat) (objects : List Obj), objects ≠ [] → objects.length ≤ fuel →
      ∃ t, recursiveBuild C .NAIVE fuel objects = .ok t := by
  intro fuel
  induction fuel with
  | zero =>
    intro objects hne hlen
    exact absurd (List.length_eq_zero.mp (Nat.le_zero.mp hlen)) hne
  | succ fuel ih =>
    intro objects hne hlen
    match objects, hne, hlen with
    | [o], _, _ => exact ⟨_, recursiveBuild_single C _ fuel o⟩
    | [a, b], _, hlen =>
      have h1 : 1 ≤ fuel := by simpa using hlen
      obtain ⟨l, hl⟩ := ih [a] (by simp) (by simpa using h1)
      obtain ⟨r, hr⟩ := ih [b] (by simp) (by simpa using h1)
      obtain ⟨lb, rb, _, _, hj⟩ := joinChildren_of_ok C .NAIVE hl hr
      exact ⟨.mk (C.Union lb rb) l r none, by rw [recursiveBuild_pair]; exact hj⟩
    | a :: b :: c :: rest, _, hlen =>
      have hn : (sortedObjects C (a :: b :: c :: rest)).length = rest.length + 3 := by
        rw [sortedObjects_length hs]; simp
      have hlen2 : rest.length + 3 ≤ fuel + 1 := by simpa using hlen
      obtain ⟨l, hl⟩ := ih ((sortedObjects C (a :: b :: c :: rest)).take
          ((sortedObjects C (a :: b :: c :: rest)).length / 2))
        (by
          intro h
          have := congrArg List.length h
          simp only [List.length_take, List.length_nil, hn] at this
          omega)
        (by simp only [List.length_take, hn]; omega)
      obtain ⟨r, hr⟩ := ih ((sortedObjects C (a :: b :: c :: rest)).drop
          ((sortedObjects C (a :: b :: c :: rest)).length / 2))
        (by
          intro h
          have := congrArg List.length h
          simp only [List.length_drop, List.length_nil, hn] at this
          omega)
        (by simp only [List.length_drop, hn]; omega)
      obtain ⟨lb, rb, _, _, hj⟩ := joinChildren_of_ok C .NAIVE hl hr
      refine ⟨.mk (C.Union lb rb) l r none, ?_⟩
      rw [recursiveBuild_many, splitBuild, splitIndex_naive]
      exact hj

/-! ## The SAH loop -/

theorem foldl_sahStep_no_beat (C : Collab Obj Box F M) (SN : F) (objects : List Obj) :
    ∀ (l : List Nat) (st : F × Nat),
      (∀ i ∈ l, C.lt (sahCost C SN objects i) st.1 = false) →
      l.foldl (sahStep C SN objects) st = st := by
  intro l
  induction l with
  | nil => intro st _; rfl
  | cons a l ih =>
    intro st h
    have ha : sahStep C SN objects st a = st := by
      simp [sahStep, h a (by simp)]
    rw [List.foldl_cons, ha]
    exact ih st (fun i hi => h i (List.mem_cons_of_mem _ hi))

/-- When no candidate cost compares below the sentinel the loop leaves
`mincostIndex` at `0`. -/
theorem mincostIndex_no_beat (C : Collab Obj Box F M) (cb : Box) (objects : List Obj)
    (h : ∀ i, 1 ≤ i → i ≤ 9 →
      C.lt (sahCost C (C.SurfaceArea cb) objects i) C.infinity = false) :
    mincostIndex C cb objects = 0 := by
  unfold mincostIndex sahSearch
  rw [foldl_sahStep_no_beat]
  intro i hi
  simp only [B, List.mem_range'_1] at hi
  exact h i hi.1 (by omega)

theorem foldl_sahStep_snd_le (C : Collab Obj Box F M) (SN : F) (objects : List Obj)
    (n : Nat) :
    ∀ (l : List Nat) (st : F × Nat), st.2 ≤ n → (∀ i ∈ l, i ≤ n) →
      (l.foldl (sahStep C SN objects) st).2 ≤ n := by
  intro l
  induction l with
  | nil => intro st h _; exact h
  | cons a l ih =>
    intro st h hl
    rw [List.foldl_cons]
    refine ih _ ?_ (fun i hi => hl i (List.mem_cons_of_mem _ hi))
    cases hlt : C.lt (sahCost C SN objects a) st.1
    · simpa [sahStep, hlt] using h
    · simpa [sahStep, hlt] using hl a (by simp)

theorem mincostIndex_le (C : Collab Obj Box F M) (cb : Box) (objects : List Obj) :
    mincostIndex C cb objects ≤ 9 := by
  unfold mincostIndex sahSearch
  refine foldl_sahStep_snd_le C _ objects 9 _ _ (by simp) ?_
  intro i hi
  simp only [B, List.mem_range'_1] at hi
  omega

/-- The SAH split index is below the size: the right part is never empty. -/
theorem sah_index_lt (C : Collab Obj Box F M) (cb : Box) (objects : List Obj)
    (hne : objects ≠ []) :
    objects.length * mincostIndex C cb objects / B < objects.length := by
  have h9 := mincostIndex_le C cb objects
  have hpos : 0 < objects.length := List.length_pos.mpr hne
  have : objects.length * mincostIndex C cb objects ≤ objects.length * 9 :=
    Nat.mul_le_mul_left _ h9
  unfold B
  omega

/-- The build of the empty sequence never returns under a recognised split
method: its left part is empty again. -/
theorem recursiveBuild_nil_fuelOut (C : Collab Obj Box F M) (hs : SortPermutes C)
    (sm : SplitMethod) (hsm : sm = .NAIVE ∨ sm = .SAH) :
    ∀ fuel, recursiveBuild C sm fuel [] = .fuelOut := by
  intro fuel
  have hnil : sortedObjects C ([] : List Obj) = [] :=
    List.length_eq_zero.mp (by rw [sortedObjects_length hs]; rfl)
  induction fuel with
  | zero => rfl
  | succ fuel ih =>
    rw [recursiveBuild_nil, splitBuild, hnil]
    rcases hsm with h | h <;> subst h <;>
      simp [splitIndex, ih, joinChildren]

/-- A SAH build whose loop leaves `mincostIndex` at `0` never returns. -/
theorem sah_fuelOut_of_index_zero (C : Collab Obj Box F M) (hs : SortPermutes C)
    (objects : List Obj) (h3 : 3 ≤ objects.length)
    (h0 : mincostIndex C (centroidUnion C objects) (sortedObjects C objects) = 0) :
    ∀ fuel, recursiveBuild C .SAH fuel objects = .fuelOut := by
  intro fuel
  cases fuel with
  | zero => rfl
  | succ fuel =>
    rw [recursiveBuild_of_three_le C _ fuel objects h3, splitBuild]
    simp [splitIndex, h0, recursiveBuild_nil_fuelOut C hs .SAH (Or.inr rfl), joinChildren]

theorem mem_costsInPlay (C : Collab Obj Box F M) (SN : F) (objects : List Obj)
    (i : Nat) (h1 : 1 ≤ i) (h9 : i ≤ 9) (hp : inPlay C SN objects i = true) :
    sahCost C SN objects i ∈ (C.infinity :: costsInPlay C SN objects) := by
  refine List.mem_cons_of_mem _ (List.mem_map.mpr ⟨i, ?_, rfl⟩)
  rw [List.mem_filter]
  refine ⟨?_, hp⟩
  simp only [B, List.mem_range'_1]
  omega

theorem mem_candidates (i : Nat) (h1 : 1 ≤ i) (h9 : i ≤ 9) : i ∈ List.range' 1 (B - 1) := by
  simp only [B, List.mem_range'_1]
  omega

theorem sahInv_step (C : Collab Obj Box F M) (SN : F) (objects : List Obj)
    (hord : StrictWeakOn C.lt (C.infinity :: costsInPlay C SN objects))
    (hskip : OutOfPlaySkipped C SN objects)
    (k : Nat) (hk1 : 1 ≤ k) (hk9 : k ≤ 9) (st : F × Nat)
    (hinv : SahInv C SN objects k st) :
    SahInv C SN objects (k + 1) (sahStep C SN objects st k) := by
  obtain ⟨hirr, htr, hneg⟩ := hord
  have hinf : C.infinity ∈ (C.infinity :: costsInPlay C SN objects) := by simp
  -- the value held in the state is one of the listed values
  have hst : st.1 ∈ (C.infinity :: costsInPlay C SN objects) := by
    rcases hinv with ⟨h, _⟩ | ⟨h1, h2, h3, h4, _⟩
    · rw [h]; exact hinf
    · rw [h3]; exact mem_costsInPlay C SN objects _ h1 (by omega) h4
  -- every earlier candidate in play is not below the value held in the state
  have hlow : ∀ i, 1 ≤ i → i < k → inPlay C SN objects i = true →
      C.lt (sahCost C SN objects i) st.1 = false := by
    rcases hinv with ⟨h, h2⟩ | ⟨_, _, h3, _, h5, _⟩
    · intro i hi hik hp
      rw [h2 i hi hik] at hp
      exact absurd hp (by simp)
    · intro i hi hik _; rw [h3]; exact h5 i hi hik
  cases hlt : C.lt (sahCost C SN objects k) st.1
  · -- the state is kept
    have hstep : sahStep C SN objects st k = st := by simp [sahStep, hlt]
    rw [hstep]
    rcases hinv with ⟨h, h2⟩ | ⟨h1, h2, h3, h4, h5, h6⟩
    · refine Or.inl ⟨h, fun i hi hik => ?_⟩
      rcases Nat.lt_succ_iff_lt_or_eq.mp hik with hlt2 | heq
      · exact h2 i hi hlt2
      · rw [heq]
        unfold inPlay
        rw [← show st.1 = C.infinity from by rw [h]]
        exact hlt
    · refine Or.inr ⟨h1, by omega, h3, h4, fun i hi hik => ?_, h6⟩
      rcases Nat.lt_succ_iff_lt_or_eq.mp hik with hlt2 | heq
      · exact h5 i hi hlt2
      · rw [heq, ← h3]; exact hlt
  · -- candidate `k` replaces the state
    have hstep : sahStep C SN objects st k = (sahCost C SN objects k, k) := by
      simp [sahStep, hlt]
    rw [hstep]
    -- candidate `k` is in play
    have hkp : inPlay C SN objects k = true := by
      rcases hinv with ⟨h, _⟩ | ⟨h1, h2, h3, h4, _⟩
      · unfold inPlay
        rw [← show st.1 = C.infinity from by rw [h]]
        exact hlt
      · cases hp : inPlay C SN objects k
        · have := hskip k (mem_candidates k hk1 hk9) st.2 (mem_candidates _ h1 (by omega))
            hp h4
          rw [← h3, hlt] at this
          exact absurd this (by simp)
        · rfl
    have hkm := mem_costsInPlay C SN objects k hk1 hk9 hkp
    refine Or.inr ⟨hk1, by omega, rfl, hkp, fun i hi hik => ?_, fun i hi hik hp => ?_⟩
    · rcases Nat.lt_succ_iff_lt_or_eq.mp hik with hlt2 | heq
      · cases hp : inPlay C SN objects i
        · exact hskip i (mem_candidates i hi (by omega)) k (mem_candidates k hk1 hk9) hp hkp
        · cases h : C.lt (sahCost C SN objects i) (sahCost C SN objects k)
          · rfl
          · have := htr _ (mem_costsInPlay C SN objects i hi (by omega) hp) _ hkm _ hst h hlt
            rw [hlow i hi hlt2 hp] at this
            exact absurd this (by simp)
      · rw [heq]; exact hirr _ hkm
    · cases h : C.lt (sahCost C SN objects k) (sahCost C SN objects i)
      · have := hneg _ hkm _ (mem_costsInPlay C SN objects i hi (by omega) hp) _ hst h
          (hlow i hi hik hp)
        rw [hlt] at this
        exact absurd this (by simp)
      · rfl

theorem sahInv_foldl (C : Collab Obj Box F M) (SN : F) (objects : List Obj)
    (hord : StrictWeakOn C.lt (C.infinity :: costsInPlay C SN objects))
    (hskip : OutOfPlaySkipped C SN objects) :
    ∀ (n k : Nat) (st : F × Nat), 1 ≤ k → k + n ≤ 10 → SahInv C SN objects k st →
      SahInv C SN objects (k + n) ((List.range' k n).foldl (sahStep C SN objects) st) := by
  intro n
  induction n with
  | zero => intro k st _ _ h; simpa using h
  | succ n ih =>
    intro k st hk1 hkn h
    rw [List.range'_succ, List.foldl_cons]
    have := ih (k + 1) _ (by omega) (by omega)
      (sahInv_step C SN objects hord hskip k hk1 (by omega) st h)
    rw [show k + (n + 1) = k + 1 + n by omega]
    exact this

/-! ## Traversal of a built tree -/

theorem getIntersection_leaf (C : Collab Obj Box F M) (b : Box) (o : Obj) (ray : Ray F) :
    getIntersection C (.mk b .nullptr .nullptr (some o)) ray =
      some (if accepts C ray b = true then C.getIntersection o ray else missResult C) := by
  cases h : accepts C ray b <;>
    simp [getIntersection, BVHBuildNode.isNull, accepts] at h ⊢ <;> simp [h]

theorem getIntersection_reject (C : Collab Obj Box F M) (b : Box)
    (l r : BVHBuildNode Obj Box) (o : Option Obj) (ray : Ray F)
    (h : accepts C ray b = false) :
    getIntersection C (.mk b l r o) ray = some (missResult C) := by
  simp only [accepts] at h
  simp [getIntersection, h]

theorem getIntersection_inner (C : Collab Obj Box F M) (b : Box)
    (l r : BVHBuildNode Obj Box) (o : Option Obj) (ray : Ray F)
    (h : accepts C ray b = true) (hl : l.isNull = false)
    {x y : Intersection F M} (hx : getIntersection C l ray = some x)
    (hy : getIntersection C r ray = some y) :
    getIntersection C (.mk b l r o) ray = some (mergeHits C x y) := by
  simp only [accepts] at h
  simp [getIntersection, h, hl, hx, hy]

/-- Under a built node that holds a hit primitive the box test succeeds. -/
theorem Built.accepts_of_hit {C : Collab Obj Box F M} {ray : Ray F} {objs : List Obj}
    (hmono : BoxTestMonotone C ray) (hbox : BoxEnclosesHit C ray objs)
    {t : BVHBuildNode Obj Box} {ls : List Obj} (h : Built C t ls)
    (hsub : ∀ p ∈ ls, p ∈ objs) (hhit : ∃ q ∈ ls, hits C ray q = true) :
    ∃ b, t.bounds? = some b ∧ accepts C ray b = true := by
  induction h with
  | leaf o =>
    obtain ⟨q, hq, hh⟩ := hhit
    rw [List.mem_singleton] at hq
    subst hq
    exact ⟨_, rfl, hbox q (hsub q (by simp)) hh⟩
  | @node l r lb rb ls rs hl hr hlb hrb ih1 ih2 =>
    refine ⟨_, rfl, hmono lb rb ?_⟩
    obtain ⟨q, hq, hh⟩ := hhit
    rcases List.mem_append.mp hq with hq | hq
    · obtain ⟨b, hb, ha⟩ := ih1 (fun p hp => hsub p (List.mem_append_left _ hp)) ⟨q, hq, hh⟩
      rw [hlb] at hb
      injection hb with hb
      exact Or.inl (hb ▸ ha)
    · obtain ⟨b, hb, ha⟩ := ih2 (fun p hp => hsub p (List.mem_append_right _ hp)) ⟨q, hq, hh⟩
      rw [hrb] at hb
      injection hb with hb
      exact Or.inr (hb ▸ ha)

theorem nearestAmong_missResult {C : Collab Obj Box F M} {ray : Ray F}
    {objs ls : List Obj} (hmiss : MissNotNearer C ray objs)
    (hnone : ∀ q ∈ ls, hits C ray q = false) :
    NearestAmong C ray objs ls (missResult C) := by
  refine ⟨fun h => ?_, fun _ => ⟨hnone, fun q hq hh => (hmiss q hq hh).1⟩⟩
  simp [missResult] at h

/-- The choice between two child answers is the answer over both children. -/
theorem nearestAmong_mergeHits {C : Collab Obj Box F M} {ray : Ray F}
    {objs ls rs : List Obj} (hmiss : MissNotNearer C ray objs)
    (hord : HitOrder C ray objs)
    (hsubl : ∀ p ∈ ls, p ∈ objs) (hsubr : ∀ p ∈ rs, p ∈ objs)
    {x y : Intersection F M}
    (hx : NearestAmong C ray objs ls x) (hy : NearestAmong C ray objs rs y) :
    NearestAmong C ray objs (ls ++ rs) (mergeHits C x y) := by
  obtain ⟨hirr, htr, hneg⟩ := hord
  cases hL : x.happened <;> cases hR : y.happened
  · -- neither child reports a hit
    have e : mergeHits C x y = missResult C := by simp [mergeHits, hL, hR]
    rw [e]
    refine nearestAmong_missResult hmiss ?_
    intro q hq
    rcases List.mem_append.mp hq with hq | hq
    · exact (hx.2 hL).1 q hq
    · exact (hy.2 hR).1 q hq
  · -- only the right child reports a hit
    obtain ⟨p, hp, hph, hpe, hpm⟩ := hy.1 hR
    have hlt : C.lt x.distance y.distance = false := by
      have := (hx.2 hL).2 p (hsubr p hp) hph
      rw [hpe]; exact this
    have e : mergeHits C x y = y := by simp [mergeHits, hL, hR, hlt]
    rw [e]
    refine ⟨fun _ => ⟨p, List.mem_append_right _ hp, hph, hpe, ?_⟩, fun h => ?_⟩
    · intro q hq hqh
      rcases List.mem_append.mp hq with hq | hq
      · have := (hx.2 hL).1 q hq
        rw [this] at hqh
        exact absurd hqh (by simp)
      · exact hpm q hq hqh
    · rw [hR] at h
      exact absurd h (by simp)
  · -- only the left child reports a hit
    obtain ⟨p, hp, hph, hpe, hpm⟩ := hx.1 hL
    have e : mergeHits C x y = x := by simp [mergeHits, hL, hR]
    rw [e]
    refine ⟨fun _ => ⟨p, List.mem_append_left _ hp, hph, hpe, ?_⟩, fun h => ?_⟩
    · intro q hq hqh
      rcases List.mem_append.mp hq with hq | hq
      · exact hpm q hq hqh
      · have := (hy.2 hR).1 q hq
        rw [this] at hqh
        exact absurd hqh (by simp)
    · rw [hL] at h
      exact absurd h (by simp)
  · -- both children report a hit
    obtain ⟨p, hp, hph, hpe, hpm⟩ := hx.1 hL
    obtain ⟨p2, hp2, hph2, hpe2, hpm2⟩ := hy.1 hR
    have dx : x.distance = hitDist C ray p := by rw [hpe]; rfl
    have dy : y.distance = hitDist C ray p2 := by rw [hpe2]; rfl
    cases hlt : C.lt x.distance y.distance
    · have e : mergeHits C x y = y := by simp [mergeHits, hL, hR, hlt]
      rw [e]
      refine ⟨fun _ => ⟨p2, List.mem_append_right _ hp2, hph2, hpe2, ?_⟩, fun h => ?_⟩
      · intro q hq hqh
        rcases List.mem_append.mp hq with hq | hq
        · have h1 := hpm q hq hqh
          rw [dx] at h1 hlt
          rw [dy] at hlt ⊢
          exact hneg q (hsubl q hq) p (hsubl p hp) p2 (hsubr p2 hp2) hqh hph hph2 h1 hlt
        · exact hpm2 q hq hqh
      · rw [hR] at h
        exact absurd h (by simp)
    · have e : mergeHits C x y = x := by simp [mergeHits, hL, hR, hlt]
      rw [e]
      refine ⟨fun _ => ⟨p, List.mem_append_left _ hp, hph, hpe, ?_⟩, fun h => ?_⟩
      · intro q hq hqh
        rcases List.mem_append.mp hq with hq | hq
        · exact hpm q hq hqh
        · have h1 := hpm2 q hq hqh
          rw [dy] at h1 hlt
          rw [dx] at hlt ⊢
          cases h2 : C.lt (hitDist C ray q) (hitDist C ray p)
          · rfl
          · have := htr q (hsubr q hq) p (hsubl p hp) p2 (hsubr p2 hp2) hqh hph hph2 h2 hlt
            rw [h1] at this
            exact absurd this (by simp)
      · rw [hL] at h
        exact absurd h (by simp)

/-- The traversal of a built tree returns, and returns the answer of a
nearest-hit search over the leaves. -/
theorem Built.getIntersection_nearest {C : Collab Obj Box F M} {ray : Ray F}
    {objs : List Obj} (hmono : BoxTestMonotone C ray) (hbox : BoxEnclosesHit C ray objs)
    (hmiss : MissNotNearer C ray objs) (hord : HitOrder C ray objs)
    {t : BVHBuildNode Obj Box} {ls : List Obj} (h : Built C t ls)
    (hsub : ∀ p ∈ ls, p ∈ objs) :
    ∃ res, getIntersection C t ray = some res ∧ NearestAmong C ray objs ls res := by
  induction h with
  | leaf o =>
    refine ⟨_, getIntersection_leaf C _ o ray, ?_⟩
    have ho : o ∈ objs := hsub o (by simp)
    cases hacc : accepts C ray (C.getBounds o)
    · have hno : hits C ray o = false := by
        cases hh : hits C ray o
        · rfl
        · have := hbox o ho hh
          rw [hacc] at this
          exact absurd this (by simp)
      simp only [Bool.false_eq_true, if_false]
      exact nearestAmong_missResult hmiss (by simpa using hno)
    · simp only [if_true]
      refine ⟨fun hh => ⟨o, by simp, hh, rfl, ?_⟩, fun hh => ⟨by simpa using hh, ?_⟩⟩
      · intro q hq hqh
        rw [List.mem_singleton] at hq
        subst hq
        exact hord.1 q ho hqh
      · intro q hq hqh
        exact (hmiss q hq hqh).2 o ho hh
  | @node l r lb rb ls rs hl hr hlb hrb ih1 ih2 =>
    have hsubl : ∀ p ∈ ls, p ∈ objs := fun p hp => hsub p (List.mem_append_left _ hp)
    have hsubr : ∀ p ∈ rs, p ∈ objs := fun p hp => hsub p (List.mem_append_right _ hp)
    cases hacc : accepts C ray (C.Union lb rb)
    · refine ⟨_, getIntersection_reject C _ l r none ray hacc, ?_⟩
      refine nearestAmong_missResult hmiss ?_
      intro q hq
      cases hh : hits C ray q
      · rfl
      · obtain ⟨b, hb, ha⟩ :=
          (Built.node hl hr hlb hrb).accepts_of_hit hmono hbox hsub ⟨q, hq, hh⟩
        simp only [BVHBuildNode.bounds?, Option.some.injEq] at hb
        rw [← hb, hacc] at ha
        exact absurd ha (by simp)
    · obtain ⟨x, hx, nx⟩ := ih1 hsubl
      obtain ⟨y, hy, ny⟩ := ih2 hsubr
      exact ⟨_, getIntersection_inner C _ l r none ray hacc hl.isNull hx hy,
        nearestAmong_mergeHits hmiss hord hsubl hsubr nx ny⟩

theorem segCollab_sortPermutes (missDist dflt pad : Int) :
    SortPermutes (segCollab missDist dflt pad) := by
  intro cmp l
  exact List.perm_insertionSort _ l

theorem segCollab_boxTestMonotone (missDist dflt pad : Int) (ray : Ray Int) :
    BoxTestMonotone (segCollab missDist dflt pad) ray := by
  intro a b h
  rcases a with _ | ⟨l1, h1⟩ <;> rcases b with _ | ⟨l2, h2⟩ <;>
    simp only [accepts, segCollab, Bool.and_eq_true, decide_eq_true_eq, Bool.false_eq_true,
      or_self, or_false, false_or] at h ⊢
  · exact h
  · exact h
  · omega

theorem segCollab_lt (missDist dflt pad x y : Int) :
    (segCollab missDist dflt pad).lt x y = decide (x < y) := rfl

theorem segCollab_hitOrder (missDist dflt pad : Int) (ray : Ray Int) (objs : List Segment) :
    HitOrder (segCollab missDist dflt pad) ray objs := by
  refine ⟨?_, ?_, ?_⟩
  · intro p _ _
    simp [segCollab_lt]
  · intro p _ q _ r _ _ _ _ h1 h2
    simp only [segCollab_lt, decide_eq_true_eq] at h1 h2 ⊢
    omega
  · intro p _ q _ r _ _ _ _ h1 h2
    simp only [segCollab_lt, decide_eq_false_iff_not] at h1 h2 ⊢
    omega

theorem fpWorld_sortPermutes : SortPermutes fpWorld := by
  intro cmp l
  exact List.perm_insertionSort _ l

/-! ## The build invariants -/

/-- C2: whenever `recursiveBuild` returns a tree (any split method, any
fuel), the multiset of the primitives held by its leaves is the multiset of
the input sequence, given that `std::sort` rearranges its input. -/
theorem leaf_multiset_preserved (C : Collab Obj Box F M) (hs : SortPermutes C)
    (sm : SplitMethod) (fuel : Nat) (objects : List Obj) (t : BVHBuildNode Obj Box)
    (h : recursiveBuild C sm fuel objects = .ok t) :
    (↑(leafObjects t) : Multiset Obj) = ↑objects := by
  obtain ⟨ls, hb, hp⟩ := recursiveBuild_built C sm fuel objects t h
  rw [hb.leafObjects_eq]
  exact Multiset.coe_eq_coe.mpr (hp hs)

theorem leaf_multiset_preserved_witness :
    recursiveBuild segWorld .NAIVE 3 [segA, segB, segC] = .ok segTree3 ∧
    (↑(leafObjects segTree3) : Multiset Segment) = ↑[segA, segB, segC] :=
  ⟨by decide,
   leaf_multiset_preserved segWorld (segCollab_sortPermutes _ _ _) .NAIVE 3
     [segA, segB, segC] segTree3 (by decide)⟩

/-- C3: in every tree returned by `recursiveBuild`, each internal node's
bounds is `Union(left.bounds, right.bounds)` and each leaf's bounds is the
`getBounds()` of its primitive. -/
theorem bounds_invariant (C : Collab Obj Box F M) (sm : SplitMethod) (fuel : Nat)
    (objects : List Obj) (t : BVHBuildNode Obj Box)
    (h : recursiveBuild C sm fuel objects = .ok t) : BoundsInv C t := by
  obtain ⟨ls, hb, _⟩ := recursiveBuild_built C sm fuel objects t h
  exact hb.boundsInv

theorem bounds_invariant_witness :
    recursiveBuild segWorld .SAH 3 [segA, segB, segC] = .ok segTreeSAH ∧
    BoundsInv segWorld segTreeSAH :=
  ⟨by decide, bounds_invariant segWorld .SAH 3 [segA, segB, segC] segTreeSAH (by decide)⟩

/-- C4: every node of every tree returned by `recursiveBuild` is a leaf (no
children, an object that is one of the input primitives) or has both
children; no node has exactly one child. -/
theorem node_shape_invariant (C : Collab Obj Box F M) (hs : SortPermutes C)
    (sm : SplitMethod) (fuel : Nat) (objects : List Obj) (t : BVHBuildNode Obj Box)
    (h : recursiveBuild C sm fuel objects = .ok t) : ShapeInv objects t := by
  obtain ⟨ls, hb, hp⟩ := recursiveBuild_built C sm fuel objects t h
  exact hb.shapeInv objects (fun p hp1 => (hp hs).subset hp1)

theorem node_shape_invariant_witness :
    recursiveBuild segWorld .NAIVE 3 [segA, segB, segC] = .ok segTree3 ∧
    ShapeInv [segA, segB, segC] segTree3 :=
  ⟨by decide,
   node_shape_invariant segWorld (segCollab_sortPermutes _ _ _) .NAIVE 3
     [segA, segB, segC] segTree3 (by decide)⟩

/-- C6: with the median policy a sequence of `n ≥ 3` primitives is cut after
the first `n / 2` elements of the sorted sequence; the left child is the
build of that part and the right child the build of the remaining
`n - n / 2` elements; both counts are at least 1, sum to `n` and are below
`n`; and the median build returns on every non-empty sequence (fuel equal to
the length is enough). -/
theorem median_partition (C : Collab Obj Box F M) (hs : SortPermutes C)
    (objects : List Obj) :
    (3 ≤ objects.length →
      (∀ fuel, recursiveBuild C .NAIVE (fuel + 1) objects =
        joinChildren C
          (recursiveBuild C .NAIVE fuel ((sortedObjects C objects).take (objects.length / 2)))
          (recursiveBuild C .NAIVE fuel
            ((sortedObjects C objects).drop (objects.length / 2)))) ∧
      (∀ fuel, objects.length ≤ fuel + 1 →
        ∃ l r lb rb,
          recursiveBuild C .NAIVE fuel
            ((sortedObjects C objects).take (objects.length / 2)) = .ok l ∧
          recursiveBuild C .NAIVE fuel
            ((sortedObjects C objects).drop (objects.length / 2)) = .ok r ∧
          l.bounds? = some lb ∧ r.bounds? = some rb ∧
          recursiveBuild C .NAIVE (fuel + 1) objects = .ok (.mk (C.Union lb rb) l r none)) ∧
      ((sortedObjects C objects).take (objects.length / 2)).length = objects.length / 2 ∧
      ((sortedObjects C objects).drop (objects.length / 2)).length =
        objects.length - objects.length / 2 ∧
      1 ≤ objects.length / 2 ∧ 1 ≤ objects.length - objects.length / 2 ∧
      objects.length / 2 + (objects.length - objects.length / 2) = objects.length ∧
      objects.length / 2 < objects.length ∧
      objects.length - objects.length / 2 < objects.length) ∧
    (objects ≠ [] → ∀ fuel, objects.length ≤ fuel →
      ∃ t, recursiveBuild C .NAIVE fuel objects = .ok t) := by
  refine ⟨fun h3 => ?_, fun hne fuel hlen => naive_terminates C hs fuel objects hne hlen⟩
  have hn := sortedObjects_length hs objects
  have heq : ∀ fuel, recursiveBuild C .NAIVE (fuel + 1) objects =
      joinChildren C
        (recursiveBuild C .NAIVE fuel ((sortedObjects C objects).take (objects.length / 2)))
        (recursiveBuild C .NAIVE fuel
          ((sortedObjects C objects).drop (objects.length / 2))) := by
    intro fuel
    rw [recursiveBuild_of_three_le C _ fuel objects h3, splitBuild, splitIndex_naive, hn]
  have htake : ((sortedObjects C objects).take (objects.length / 2)).length =
      objects.length / 2 := by
    rw [List.length_take, hn]; omega
  have hdrop : ((sortedObjects C objects).drop (objects.length / 2)).length =
      objects.length - objects.length / 2 := by
    rw [List.length_drop, hn]
  refine ⟨heq, ?_, htake, hdrop, by omega, by omega, by omega, by omega, by omega⟩
  intro fuel hlen
  obtain ⟨l, hl⟩ := naive_terminates C hs fuel
    ((sortedObjects C objects).take (objects.length / 2))
    (by intro h; rw [h] at htake; simp at htake; omega) (by rw [htake]; omega)
  obtain ⟨r, hr⟩ := naive_terminates C hs fuel
    ((sortedObjects C objects).drop (objects.length / 2))
    (by intro h; rw [h] at hdrop; simp at hdrop; omega) (by rw [hdrop]; omega)
  obtain ⟨lb, rb, hlb, hrb, hj⟩ := joinChildren_of_ok C .NAIVE hl hr
  exact ⟨l, r, lb, rb, hl, hr, hlb, hrb, by rw [heq]; exact hj⟩

theorem median_partition_witness :
    ((sortedObjects segWorld [segA, segB, segC, segD]).take 2).length = 2 ∧
    ∃ t, recursiveBuild segWorld .NAIVE 4 [segA, segB, segC, segD] = .ok t :=
  ⟨((median_partition segWorld (segCollab_sortPermutes _ _ _)
      [segA, segB, segC, segD]).1 (by decide)).2.2.1,
   (median_partition segWorld (segCollab_sortPermutes _ _ _) [segA, segB, segC, segD]).2
    (by decide) 4 (by decide)⟩

/-! ## The SAH split -/

/-- C5, the code at the failing inputs: for three coincident points, and
for three points on a line parallel to an axis, every candidate cost of the
SAH loop is NaN, `mincostIndex` stays `0`, the split index is `0` (an empty
left part), and `recursiveBuild` does not return whatever the fuel. -/
theorem sah_degenerate_never_returns :
    (costTable fpWorld threeDots = List.replicate 9 Fp.nan ∧
      mincostIndex fpWorld (centroidUnion fpWorld threeDots)
        (sortedObjects fpWorld threeDots) = 0 ∧
      splitIndex fpWorld .SAH (centroidUnion fpWorld threeDots)
        (sortedObjects fpWorld threeDots) = some 0 ∧
      ∀ fuel, recursiveBuild fpWorld .SAH fuel threeDots = .fuelOut) ∧
    (costTable fpWorld dotsInLine = List.replicate 9 Fp.nan ∧
      mincostIndex fpWorld (centroidUnion fpWorld dotsInLine)
        (sortedObjects fpWorld dotsInLine) = 0 ∧
      splitIndex fpWorld .SAH (centroidUnion fpWorld dotsInLine)
        (sortedObjects fpWorld dotsInLine) = some 0 ∧
      ∀ fuel, recursiveBuild fpWorld .SAH fuel dotsInLine = .fuelOut) := by
  have h1 : mincostIndex fpWorld (centroidUnion fpWorld threeDots)
      (sortedObjects fpWorld threeDots) = 0 := by decide
  have h2 : mincostIndex fpWorld (centroidUnion fpWorld dotsInLine)
      (sortedObjects fpWorld dotsInLine) = 0 := by decide
  exact ⟨⟨by decide, h1, by decide,
      sah_fuelOut_of_index_zero fpWorld fpWorld_sortPermutes threeDots (by decide) h1⟩,
    ⟨by decide, h2, by decide,
      sah_fuelOut_of_index_zero fpWorld fpWorld_sortPermutes dotsInLine (by decide) h2⟩⟩

/-- C7, as stated, fails: for `fiveDots` the candidate `i = 1` has
`pos(1) = 0` and cost NaN (the empty left region has infinite area, and
`0 * infinity` is NaN), so no `i` in `1..9` satisfies `cost(i) <= cost(k)`
for all `k` in `1..9`; read as "no cost is below", the first such `i` is
`1`, whose position is `0`.  The SAH branch passes over the NaN candidate
and splits at `pos(8) = 4`, which separates the far point. -/
theorem sah_skips_nan_candidate :
    (costTable fpWorld fiveDots).head? = some Fp.nan ∧
    (∀ i ∈ List.range' 1 9, ∃ k ∈ List.range' 1 9,
      Fp.le ((costTable fpWorld fiveDots).getD (i - 1) Fp.nan)
        ((costTable fpWorld fiveDots).getD (k - 1) Fp.nan) = false) ∧
    (∀ k ∈ List.range' 1 9,
      Fp.lt ((costTable fpWorld fiveDots).getD (k - 1) Fp.nan)
        ((costTable fpWorld fiveDots).getD 0 Fp.nan) = false) ∧
    sahPos (sortedObjects fpWorld fiveDots) 1 = 0 ∧
    mincostIndex fpWorld (centroidUnion fpWorld fiveDots)
      (sortedObjects fpWorld fiveDots) = 8 ∧
    splitIndex fpWorld .SAH (centroidUnion fpWorld fiveDots)
      (sortedObjects fpWorld fiveDots) = some 4 := by
  decide

/-- C7, amended: call a candidate in play when its cost compares below
`+infinity`.  When `<` is a strict weak order on `+infinity` and the costs in
play, a candidate out of play (cost NaN or `+infinity`) is below no
candidate in play, and some candidate is in play, the SAH branch splits at
`pos(j)` for the `j` in `1..9` that is in play, below whose cost no
candidate costs, and before which every candidate in play costs strictly
more: the first candidate of least cost among those in play. -/
theorem sah_first_minimum (C : Collab Obj Box F M) (cb : Box) (objects : List Obj)
    (hord : StrictWeakOn C.lt
      (C.infinity :: costsInPlay C (C.SurfaceArea cb) objects))
    (hskip : OutOfPlaySkipped C (C.SurfaceArea cb) objects)
    (hbeat : ∃ i, 1 ≤ i ∧ i ≤ 9 ∧ inPlay C (C.SurfaceArea cb) objects i = true) :
    ∃ j, 1 ≤ j ∧ j ≤ 9 ∧ inPlay C (C.SurfaceArea cb) objects j = true ∧
      mincostIndex C cb objects = j ∧
      splitIndex C .SAH cb objects = some (sahPos objects j) ∧
      (∀ i, 1 ≤ i → i ≤ 9 →
        C.lt (sahCost C (C.SurfaceArea cb) objects i)
          (sahCost C (C.SurfaceArea cb) objects j) = false) ∧
      (∀ i, 1 ≤ i → i < j → inPlay C (C.SurfaceArea cb) objects i = true →
        C.lt (sahCost C (C.SurfaceArea cb) objects j)
          (sahCost C (C.SurfaceArea cb) objects i) = true) := by
  have hinv := sahInv_foldl C (C.SurfaceArea cb) objects hord hskip 9 1 (C.infinity, 0)
    (le_refl 1) (by omega) (Or.inl ⟨rfl, fun i h1 h2 => by omega⟩)
  have hs : (List.range' 1 9).foldl (sahStep C (C.SurfaceArea cb) objects) (C.infinity, 0) =
      sahSearch C (C.SurfaceArea cb) objects := rfl
  rw [hs] at hinv
  rcases hinv with ⟨_, hnone⟩ | ⟨h1, h2, _, h4, h5, h6⟩
  · obtain ⟨i, hi1, hi9, hlt⟩ := hbeat
    rw [hnone i hi1 (by omega)] at hlt
    exact absurd hlt (by simp)
  · exact ⟨_, h1, by omega, h4, rfl, rfl, fun i hi hi9 => h5 i hi (by omega), h6⟩

theorem sah_first_minimum_witness :
    (mincostIndex fpWorld (centroidUnion fpWorld clusterDots)
        (sortedObjects fpWorld clusterDots) = 9 ∧
      sahPos (sortedObjects fpWorld clusterDots) 9 = 9) ∧
    inPlay fpWorld (fpWorld.SurfaceArea (centroidUnion fpWorld fiveDots))
      (sortedObjects fpWorld fiveDots) 1 = false ∧
    ∃ j, 1 ≤ j ∧ j ≤ 9 ∧
      inPlay fpWorld (fpWorld.SurfaceArea (centroidUnion fpWorld fiveDots))
        (sortedObjects fpWorld fiveDots) j = true ∧
      mincostIndex fpWorld (centroidUnion fpWorld fiveDots)
        (sortedObjects fpWorld fiveDots) = j ∧
      splitIndex fpWorld .SAH (centroidUnion fpWorld fiveDots)
        (sortedObjects fpWorld fiveDots) = some (sahPos (sortedObjects fpWorld fiveDots) j) ∧
      (∀ i, 1 ≤ i → i ≤ 9 →
        fpWorld.lt
          (sahCost fpWorld (fpWorld.SurfaceArea (centroidUnion fpWorld fiveDots))
            (sortedObjects fpWorld fiveDots) i)
          (sahCost fpWorld (fpWorld.SurfaceArea (centroidUnion fpWorld fiveDots))
            (sortedObjects fpWorld fiveDots) j) = false) ∧
      (∀ i, 1 ≤ i → i < j →
        inPlay fpWorld (fpWorld.SurfaceArea (centroidUnion fpWorld fiveDots))
          (sortedObjects fpWorld fiveDots) i = true →
        fpWorld.lt
          (sahCost fpWorld (fpWorld.SurfaceArea (centroidUnion fpWorld fiveDots))
            (sortedObjects fpWorld fiveDots) j)
          (sahCost fpWorld (fpWorld.SurfaceArea (centroidUnion fpWorld fiveDots))
            (sortedObjects fpWorld fiveDots) i) = true) :=
  ⟨by decide, by decide,
   sah_first_minimum fpWorld (centroidUnion fpWorld fiveDots)
    (sortedObjects fpWorld fiveDots)
    (by unfold StrictWeakOn; decide)
    (by unfold OutOfPlaySkipped; decide)
    ⟨8, by decide, by decide, by decide⟩⟩

/-! ## Construction and the two smallest inputs -/

/-- C8, as stated, fails: a single primitive and a split method that is
neither `NAIVE` nor `SAH` yield a built accelerator. -/
theorem unknown_policy_builds_single :
    BVHAccel.construct segWorld 1 [segA] 4 (.other 7) =
      .ok { root := segLeaf segA, maxPrimsInNode := 4, splitMethod := .other 7,
            primitives := [segA] } := by
  decide

/-- C8, amended: with a split method that is neither `NAIVE` nor `SAH`,
construction from three or more primitives stops at the failed assertion,
and construction from at most two primitives returns an accelerator that
keeps the unrecognised method. -/
theorem unknown_policy_aborts_from_three (C : Collab Obj Box F M) (p : List Obj)
    (m code : Int) (fuel : Nat) :
    (3 ≤ p.length → BVHAccel.construct C (fuel + 1) p m (.other code) = .assertFailed) ∧
    (p.length ≤ 2 → ∃ acc, BVHAccel.construct C (fuel + 2) p m (.other code) = .ok acc ∧
      acc.splitMethod = .other code) := by
  constructor
  · intro h3
    match p, h3 with
    | a :: b :: c :: rest, _ =>
      simp [BVHAccel.construct, recursiveBuild_many, splitBuild, splitIndex]
  · intro h2
    match p, h2 with
    | [], _ => exact ⟨_, rfl, rfl⟩
    | [a], _ => exact ⟨_, rfl, rfl⟩
    | [a, b], _ => exact ⟨_, rfl, rfl⟩
    | a :: b :: c :: rest, h => simp at h

theorem unknown_policy_aborts_from_three_witness :
    BVHAccel.construct segWorld 1 [segA, segB, segC] 255 (.other 7) = .assertFailed :=
  (unknown_policy_aborts_from_three segWorld [segA, segB, segC] 255 7 0).1 (by decide)

/-- C9: construction from the empty sequence returns an accelerator with a
null root, whatever the split method and `maxPrimsInNode`, and `Intersect`
then reports `happened = false` for every ray. -/
theorem empty_input_no_hit (C : Collab Obj Box F M) (fuel : Nat) (m : Int)
    (sm : SplitMethod) (ray : Ray F) :
    ∃ acc, BVHAccel.construct C fuel [] m sm = .ok acc ∧ acc.root = .nullptr ∧
      ∃ res, Intersect C acc ray = some res ∧ res.happened = false :=
  ⟨_, rfl, rfl, _, rfl, rfl⟩

/-- C10, as stated, fails.  In `zeroMissWorld` the ray from abscissa 7 misses
the box of `segA`, so `Intersect` returns the no-hit record of
`getIntersection` (distance `1000000`) and not the record `segA` itself
returns (distance `0`).  In `narrowBoxWorld` the ray from abscissa 12 hits
`segB` but misses the bounds `segB` declares, so `Intersect` returns the
no-hit record and not the hit `segB` returns. -/
theorem single_primitive_not_verbatim :
    (∃ acc, BVHAccel.construct zeroMissWorld 1 [segA] 255 .NAIVE = .ok acc ∧
      acc.root = segLeaf segA ∧
      Intersect zeroMissWorld acc (downRay 7) ≠
        some (zeroMissWorld.getIntersection segA (downRay 7))) ∧
    (∃ acc, BVHAccel.construct narrowBoxWorld 1 [segB] 255 .NAIVE = .ok acc ∧
      (narrowBoxWorld.getIntersection segB (downRay 12)).happened = true ∧
      Intersect narrowBoxWorld acc (downRay 12) = some (missResult narrowBoxWorld)) :=
  ⟨⟨_, rfl, rfl, by decide⟩, ⟨_, rfl, by decide, by decide⟩⟩

/-- C10, amended: the tree built from `[p]` is a single leaf holding `p` with
bounds `p.getBounds()`; `Intersect` returns `p.getIntersection(ray)` when the
box test accepts these bounds and the no-hit record otherwise. -/
theorem single_primitive (C : Collab Obj Box F M) (p : Obj) (sm : SplitMethod)
    (fuel : Nat) (m : Int) (ray : Ray F) :
    ∃ acc, BVHAccel.construct C (fuel + 1) [p] m sm = .ok acc ∧
      acc.root = .mk (C.getBounds p) .nullptr .nullptr (some p) ∧
      Intersect C acc ray =
        some (if C.IntersectP (C.getBounds p) ray ray.direction_inv (dirIsNeg C ray) = true
          then C.getIntersection p ray else missResult C) := by
  refine ⟨_, rfl, rfl, ?_⟩
  cases h : C.IntersectP (C.getBounds p) ray ray.direction_inv (dirIsNeg C ray) <;>
    simp [Intersect, getIntersection, BVHBuildNode.isNull, h]

/-! ## Nearest hit -/

/-- C1, as stated, fails in two ways.  In `zeroMissWorld` the ray from
abscissa 11 hits `segB`, yet `Intersect` over `[segBack, segB]` reports no
hit: the miss record of `segBack` carries distance `0`, which compares below
the hit distance `3`.  In `narrowBoxWorld` the ray from abscissa 0 hits `segA`,
yet `Intersect` over `[segA]` reports no hit: the box test fails on the
bounds `segA` declares. -/
theorem nearest_hit_lost :
    (hits zeroMissWorld (downRay 11) segB = true ∧
      ∃ acc res, BVHAccel.construct zeroMissWorld 2 [segBack, segB] 255 .NAIVE = .ok acc ∧
        Intersect zeroMissWorld acc (downRay 11) = some res ∧ res.happened = false) ∧
    (hits narrowBoxWorld (downRay 0) segA = true ∧
      ∃ acc res, BVHAccel.construct narrowBoxWorld 1 [segA] 255 .SAH = .ok acc ∧
        Intersect narrowBoxWorld acc (downRay 0) = some res ∧ res.happened = false) :=
  ⟨⟨by decide,
    { root := .mk (some (0, 12)) (segLeaf segBack) (segLeaf segB) none,
      maxPrimsInNode := 255, splitMethod := .NAIVE, primitives := [segBack, segB] },
    { happened := false, distance := 0, info := none }, by decide, by decide, rfl⟩,
   ⟨by decide,
    { root := .mk (some (1, 1)) .nullptr .nullptr (some segA),
      maxPrimsInNode := 255, splitMethod := .SAH, primitives := [segA] },
    { happened := false, distance := 1000000, info := none }, by decide, by decide, rfl⟩⟩

/-- C1, amended: whenever construction returns an accelerator (either split
method, any primitive sequence), and for a ray on which (i) the box test is
monotone under union, (ii) the box test accepts the bounds of every
primitive that reports a hit, (iii) no miss record carries a distance below
a hit distance, and the comparison is a strict weak order on the hit
distances, `Intersect` returns a record that is a hit if and only if some
primitive reports a hit, and then it is the record of a hit primitive than
which no hit primitive is nearer; `std::sort` is assumed to rearrange. -/
theorem nearest_hit (C : Collab Obj Box F M) (objs : List Obj) (ray : Ray F)
    (sm : SplitMethod) (fuel : Nat) (m : Int) (acc : BVHAccel Obj Box)
    (hs : SortPermutes C) (hmono : BoxTestMonotone C ray)
    (hbox : BoxEnclosesHit C ray objs) (hmiss : MissNotNearer C ray objs)
    (hord : HitOrder C ray objs)
    (hc : BVHAccel.construct C fuel objs m sm = .ok acc) :
    ∃ res, Intersect C acc ray = some res ∧
      (res.happened = true ↔ ∃ p ∈ objs, hits C ray p = true) ∧
      (res.happened = true →
        ∃ p ∈ objs, hits C ray p = true ∧ res = C.getIntersection p ray ∧
          ∀ q ∈ objs, hits C ray q = true → C.lt (hitDist C ray q) res.distance = false) := by
  unfold BVHAccel.construct at hc
  split at hc
  · rename_i hemp
    have hnil : objs = [] := by simpa using hemp
    injection hc with hc
    subst hc hnil
    refine ⟨defaultIsect C, rfl, ?_, ?_⟩ <;> simp [defaultIsect]
  · cases hb : recursiveBuild C sm fuel objs with
    | ok root =>
      rw [hb] at hc
      injection hc with hc
      subst hc
      obtain ⟨ls, hbuilt, hperm⟩ := recursiveBuild_built C sm fuel objs root hb
      have hp := hperm hs
      obtain ⟨res, hres, hA, hB⟩ :=
        hbuilt.getIntersection_nearest hmono hbox hmiss hord (fun p h => hp.subset h)
      refine ⟨res, ?_, ⟨fun h => ?_, fun h => ?_⟩, fun h => ?_⟩
      · simp [Intersect, hbuilt.isNull, hres]
      · obtain ⟨p, hpm, hph, _⟩ := hA h
        exact ⟨p, hp.subset hpm, hph⟩
      · obtain ⟨p, hpm, hph⟩ := h
        cases hh : res.happened
        · have := (hB hh).1 p (hp.symm.subset hpm)
          rw [hph] at this
          exact absurd this (by simp)
        · rfl
      · obtain ⟨p, hpm, hph, hpe, hmin⟩ := hA h
        exact ⟨p, hp.subset hpm, hph, hpe, fun q hq => hmin q (hp.symm.subset hq)⟩
    | assertFailed => rw [hb] at hc; simp at hc
    | nullDeref => rw [hb] at hc; simp at hc
    | fuelOut => rw [hb] at hc; simp at hc

theorem nearest_hit_witness :
    ∃ res, Intersect segWorld
        { root := segTreeSAH, maxPrimsInNode := 255, splitMethod := .SAH,
          primitives := [segA, segB, segC] } (downRay 1) = some res ∧
      (res.happened = true ↔ ∃ p ∈ [segA, segB, segC], hits segWorld (downRay 1) p = true) ∧
      (res.happened = true →
        ∃ p ∈ [segA, segB, segC], hits segWorld (downRay 1) p = true ∧
          res = segWorld.getIntersection p (downRay 1) ∧
          ∀ q ∈ [segA, segB, segC], hits segWorld (downRay 1) q = true →
            segWorld.lt (hitDist segWorld (downRay 1) q) res.distance = false) :=
  nearest_hit segWorld [segA, segB, segC] (downRay 1) .SAH 3 300 _
    (segCollab_sortPermutes _ _ _) (segCollab_boxTestMonotone _ _ _ _)
    (by unfold BoxEnclosesHit; decide) (by unfold MissNotNearer; decide)
    (segCollab_hitOrder _ _ _ _ _) (by decide)

/-! ## The merge and the box test at one node -/

theorem getIntersection_internal (C : Collab Obj Box F M) (b : Box)
    (l r : BVHBuildNode Obj Box) (o : Option Obj) (ray : Ray F)
    (h : accepts C ray b = true) (hin : (l.isNull && r.isNull) = false)
    {x y : Intersection F M} (hx : getIntersection C l ray = some x)
    (hy : getIntersection C r ray = some y) :
    getIntersection C (.mk b l r o) ray = some (mergeHits C x y) := by
  simp only [accepts] at h
  simp [getIntersection, h, hin, hx, hy]

/-- C13, the code at the failing input: at the node over `segBack` and
`segD` in `zeroMissWorld` the ray from abscissa 5 passes the box test, the
left child returns a miss record with distance `0`, the right child returns
a hit at distance `9`, and `getIntersection` returns the miss record: line
164 tests `!hitRight.happened` but not `!hitLeft.happened`, so the hit of the
right child is lost. -/
theorem merge_loses_hit :
    accepts zeroMissWorld (downRay 5) (some (0, 12)) = true ∧
    getIntersection zeroMissWorld (segLeaf segBack) (downRay 5) =
      some { happened := false, distance := 0, info := none } ∧
    getIntersection zeroMissWorld (segLeaf segD) (downRay 5) =
      some { happened := true, distance := 9, info := some segD } ∧
    getIntersection zeroMissWorld
      (.mk (some (0, 12)) (segLeaf segBack) (segLeaf segD) none) (downRay 5) =
      some { happened := false, distance := 0, info := none } := by
  decide

/-- C14: at an internal node whose box the ray hits, when both child results
happened, `getIntersection` returns the left result when
`left.distance < right.distance` and the right result otherwise; so on equal
distances (`<` being irreflexive there) it returns the right result. -/
theorem merge_tie_break (C : Collab Obj Box F M) (b : Box)
    (l r : BVHBuildNode Obj Box) (o : Option Obj) (ray : Ray F)
    (x y : Intersection F M)
    (hacc : accepts C ray b = true) (hin : (l.isNull && r.isNull) = false)
    (hx : getIntersection C l ray = some x) (hy : getIntersection C r ray = some y)
    (hL : x.happened = true) (hR : y.happened = true) :
    (C.lt x.distance y.distance = true → getIntersection C (.mk b l r o) ray = some x) ∧
    (C.lt x.distance y.distance = false → getIntersection C (.mk b l r o) ray = some y) ∧
    (x.distance = y.distance → C.lt y.distance y.distance = false →
      getIntersection C (.mk b l r o) ray = some y) := by
  rw [getIntersection_internal C b l r o ray hacc hin hx hy]
  refine ⟨fun h => ?_, fun h => ?_, fun he h => ?_⟩
  · simp [mergeHits, hL, hR, h]
  · simp [mergeHits, hL, hR, h]
  · simp [mergeHits, hL, hR, he, h]

theorem merge_tie_break_witness :
    getIntersection segWorld
      (.mk (some (0, 11)) (segLeaf ⟨0, 2, 9, true⟩) (segLeaf segD) none) (downRay 1) =
      some ⟨true, 9, some segD⟩ :=
  (merge_tie_break segWorld (some (0, 11)) (segLeaf ⟨0, 2, 9, true⟩) (segLeaf segD) none
    (downRay 1) ⟨true, 9, some ⟨0, 2, 9, true⟩⟩ ⟨true, 9, some segD⟩
    (by decide) (by decide) (by decide) (by decide) rfl rfl).2.2 rfl (by decide)

/-- C15: if the box test fails on `node.bounds`, `getIntersection` returns
the no-hit record whatever the children and the object are and whatever the
primitives would report (also when `Object::getIntersection` is replaced by
any other function); the sign vector passed to the box test has component
`1` on the axes where `direction < 0` holds and `0` on the others. -/
theorem box_pruning (C : Collab Obj Box F M) (b : Box) (ray : Ray F) :
    (C.IntersectP b ray ray.direction_inv (dirIsNeg C ray) = false →
      ∀ (l r : BVHBuildNode Obj Box) (o : Option Obj)
        (g : Obj → Ray F → Intersection F M),
        getIntersection { C with getIntersection := g } (.mk b l r o) ray =
          some (missResult C) ∧
        (missResult C).happened = false) ∧
    (accepts C ray b = C.IntersectP b ray ray.direction_inv (dirIsNeg C ray)) ∧
    ((dirIsNeg C ray).1 = if C.lt ray.direction.x C.zero = true then 1 else 0) ∧
    ((dirIsNeg C ray).2.1 = if C.lt ray.direction.y C.zero = true then 1 else 0) ∧
    ((dirIsNeg C ray).2.2 = if C.lt ray.direction.z C.zero = true then 1 else 0) := by
  refine ⟨fun h l r o g => ⟨?_, rfl⟩, rfl, rfl, rfl, rfl⟩
  have h2 : C.IntersectP b ray ray.direction_inv
      (dirIsNeg { C with getIntersection := g } ray) = false := h
  simp only [getIntersection, h2]
  rfl

theorem box_pruning_witness :
    getIntersection { segWorld with getIntersection := fun s _ => ⟨true, 0, some s⟩ }
      (.mk (some (0, 2)) (segLeaf segB) .nullptr none) (downRay 7) =
      some (missResult segWorld) ∧
    (missResult segWorld).happened = false :=
  (box_pruning segWorld (some (0, 2)) (downRay 7)).1 (by decide)
    (segLeaf segB) .nullptr none (fun s _ => ⟨true, 0, some s⟩)

/-! ## Configuration that is not consulted -/

theorem Built.leavesHoldOne {C : Collab Obj Box F M} {t : BVHBuildNode Obj Box}
    {ls : List Obj} (h : Built C t ls) : LeavesHoldOne t := by
  induction h with
  | leaf o => simp [LeavesHoldOne, BVHBuildNode.isNull]
  | node hl hr _ _ ih1 ih2 => simp [LeavesHoldOne, hl.isNull, ih1, ih2]

/-- C12: for any two values of `maxPrimsInNode` construction ends the same
way and, when it returns, with the same tree; every leaf of a returned tree
holds one primitive. -/
theorem maxPrims_does_not_matter (C : Collab Obj Box F M) (fuel : Nat) (p : List Obj)
    (m1 m2 : Int) (sm : SplitMethod) :
    rootOf (BVHAccel.construct C fuel p m1 sm) = rootOf (BVHAccel.construct C fuel p m2 sm) ∧
    (∀ acc, BVHAccel.construct C fuel p m1 sm = .ok acc → LeavesHoldOne acc.root) := by
  constructor
  · unfold BVHAccel.construct
    split
    · rfl
    · cases recursiveBuild C sm fuel p <;> rfl
  · intro acc h
    unfold BVHAccel.construct at h
    split at h
    · injection h with h
      subst h
      exact True.intro
    · cases hb : recursiveBuild C sm fuel p with
      | ok root =>
        rw [hb] at h
        injection h with h
        subst h
        obtain ⟨ls, hbuilt, _⟩ := recursiveBuild_built C sm fuel p root hb
        exact hbuilt.leavesHoldOne
      | assertFailed => rw [hb] at h; simp at h
      | nullDeref => rw [hb] at h; simp at h
      | fuelOut => rw [hb] at h; simp at h

theorem maxPrims_does_not_matter_witness :
    rootOf (BVHAccel.construct segWorld 3 [segA, segB, segC] 1 .NAIVE) = .ok segTree3 ∧
    rootOf (BVHAccel.construct segWorld 3 [segA, segB, segC] (-7) .NAIVE) = .ok segTree3 ∧
    LeavesHoldOne segTree3 :=
  ⟨by decide, by decide,
   (maxPrims_does_not_matter segWorld 3 [segA, segB, segC] 1000 (-7) .NAIVE).2
     { root := segTree3, maxPrimsInNode := 255, splitMethod := .NAIVE,
       primitives := [segA, segB, segC] } (by decide)⟩

/-- C18: for every split-method value the build of `[a, b]` returns the
internal node with bounds `Union(a.getBounds(), b.getBounds())` whose left
child is the leaf of `a` and whose right child is the leaf of `b`; the result
is the same whatever `std::sort`, `Centroid`, `maxExtent`, the comparison
and the split method are. -/
theorem two_element_build (C : Collab Obj Box F M) (sm : SplitMethod) (fuel : Nat)
    (a b : Obj) :
    recursiveBuild C sm (fuel + 2) [a, b] =
      .ok (.mk (C.Union (C.getBounds a) (C.getBounds b))
        (.mk (C.getBounds a) .nullptr .nullptr (some a))
        (.mk (C.getBounds b) .nullptr .nullptr (some b)) none) ∧
    ∀ (sm2 : SplitMethod) (srt : (Obj → Obj → Bool) → List Obj → List Obj)
      (cen : Box → Vector3f F) (mx : Box → Int) (ltf : F → F → Bool),
      recursiveBuild { C with sort := srt, Centroid := cen, maxExtent := mx, lt := ltf }
        sm2 (fuel + 2) [a, b] = recursiveBuild C sm (fuel + 2) [a, b] :=
  ⟨rfl, fun _ _ _ _ _ => rfl⟩

/-! ## Hits come from leaves on accepted paths -/

theorem mergeHits_cases (C : Collab Obj Box F M) (x y : Intersection F M) :
    mergeHits C x y = missResult C ∨ mergeHits C x y = x ∨ mergeHits C x y = y := by
  unfold mergeHits
  split
  · exact Or.inl rfl
  · split
    · exact Or.inr (Or.inl rfl)
    · exact Or.inr (Or.inr rfl)

/-- A hit returned by the traversal of any tree is the record of a primitive
held by a leaf below boxes that all passed the box test. -/
theorem getIntersection_hit_genuine (C : Collab Obj Box F M) (ray : Ray F) :
    ∀ (t : BVHBuildNode Obj Box) (res : Intersection F M),
      getIntersection C t ray = some res → res.happened = true →
      ∃ p, AcceptedLeaf C ray p t ∧ res = C.getIntersection p ray := by
  intro t
  induction t with
  | nullptr =>
    intro res h hh
    simp only [getIntersection, Option.some.injEq] at h
    rw [← h] at hh
    simp [missResult] at hh
  | mk b l r o ihl ihr =>
    intro res h hh
    cases hacc : accepts C ray b
    · rw [getIntersection_reject C b l r o ray hacc] at h
      injection h with h
      rw [← h] at hh
      simp [missResult] at hh
    · cases hin : (l.isNull && r.isNull)
      · cases hx : getIntersection C l ray with
        | none =>
          simp only [accepts] at hacc
          simp [getIntersection, hacc, hin, hx] at h
        | some x =>
          cases hy : getIntersection C r ray with
          | none =>
            simp only [accepts] at hacc
            simp [getIntersection, hacc, hin, hx, hy] at h
          | some y =>
            rw [getIntersection_internal C b l r o ray hacc hin hx hy] at h
            injection h with h
            rcases mergeHits_cases C x y with e | e | e
            · rw [e] at h
              rw [← h] at hh
              simp [missResult] at hh
            · rw [e] at h
              subst h
              obtain ⟨p, hp, he⟩ := ihl x hx hh
              exact ⟨p, ⟨hacc, by simp only [hin, Bool.false_eq_true, if_false]; exact Or.inl hp⟩, he⟩
            · rw [e] at h
              subst h
              obtain ⟨p, hp, he⟩ := ihr y hy hh
              exact ⟨p, ⟨hacc, by simp only [hin, Bool.false_eq_true, if_false]; exact Or.inr hp⟩, he⟩
      · cases o with
        | none =>
          simp only [accepts] at hacc
          simp [getIntersection, hacc, hin] at h
        | some p =>
          have hacc2 := hacc
          simp only [accepts] at hacc2
          simp only [getIntersection, hacc2, hin, Bool.not_true, Bool.false_eq_true, if_false,
            if_true, Option.some.injEq] at h
          exact ⟨p, ⟨hacc, by simp [hin]⟩, h.symm⟩

theorem AcceptedLeaf.mem_leafObjects {C : Collab Obj Box F M} {ray : Ray F} {p : Obj} :
    ∀ {t : BVHBuildNode Obj Box}, AcceptedLeaf C ray p t → p ∈ leafObjects t := by
  intro t
  induction t with
  | nullptr => intro h; exact absurd h (by simp [AcceptedLeaf])
  | mk b l r o ihl ihr =>
    intro h
    obtain ⟨_, h2⟩ := h
    cases hin : (l.isNull && r.isNull)
    · simp only [hin, Bool.false_eq_true, if_false] at h2
      simp only [leafObjects, hin, Bool.false_eq_true, if_false, List.mem_append]
      rcases h2 with h2 | h2
      · exact Or.inl (ihl h2)
      · exact Or.inr (ihr h2)
    · simp only [hin, if_true] at h2
      simp [leafObjects, hin, h2]

theorem Built.getIntersection_isSome {C : Collab Obj Box F M} (ray : Ray F)
    {t : BVHBuildNode Obj Box} {ls : List Obj} (h : Built C t ls) :
    ∃ res, getIntersection C t ray = some res := by
  induction h with
  | leaf o => exact ⟨_, getIntersection_leaf C _ o ray⟩
  | @node l r lb rb ls rs hl hr hlb hrb ih1 ih2 =>
    cases hacc : accepts C ray (C.Union lb rb)
    · exact ⟨_, getIntersection_reject C _ l r none ray hacc⟩
    · obtain ⟨x, hx⟩ := ih1
      obtain ⟨y, hy⟩ := ih2
      exact ⟨_, getIntersection_inner C _ l r none ray hacc hl.isNull hx hy⟩

/-- C19: whenever construction returns, `Intersect` returns a record, and if
that record is a hit it is `p.getIntersection(ray)` for an input primitive
`p` held by a leaf such that the box test succeeded on the bounds of that
leaf and of every node above it; so its distance is not below the distance
of a nearest hit primitive.  Nothing is assumed of the box test. -/
theorem reported_hits_genuine (C : Collab Obj Box F M) (hs : SortPermutes C)
    (objs : List Obj) (ray : Ray F) (sm : SplitMethod) (fuel : Nat) (m : Int)
    (acc : BVHAccel Obj Box)
    (hc : BVHAccel.construct C fuel objs m sm = .ok acc) :
    ∃ res, Intersect C acc ray = some res ∧
      (res.happened = true →
        ∃ p ∈ objs, AcceptedLeaf C ray p acc.root ∧ res = C.getIntersection p ray ∧
          hits C ray p = true ∧
          ∀ q ∈ objs,
            (∀ q2 ∈ objs, hits C ray q2 = true →
              C.lt (hitDist C ray q2) (hitDist C ray q) = false) →
            C.lt res.distance (hitDist C ray q) = false) := by
  unfold BVHAccel.construct at hc
  split at hc
  · injection hc with hc
    subst hc
    exact ⟨defaultIsect C, rfl, fun h => by simp [defaultIsect] at h⟩
  · cases hb : recursiveBuild C sm fuel objs with
    | ok root =>
      rw [hb] at hc
      injection hc with hc
      subst hc
      obtain ⟨ls, hbuilt, hperm⟩ := recursiveBuild_built C sm fuel objs root hb
      obtain ⟨res, hres⟩ := hbuilt.getIntersection_isSome ray
      refine ⟨res, by simp [Intersect, hbuilt.isNull, hres], fun hh => ?_⟩
      obtain ⟨p, hp, he⟩ := getIntersection_hit_genuine C ray root res hres hh
      have hmem : p ∈ objs := by
        have := hp.mem_leafObjects
        rw [hbuilt.leafObjects_eq] at this
        exact (hperm hs).subset this
      have hhit : hits C ray p = true := by
        unfold hits
        rw [← he]
        exact hh
      refine ⟨p, hmem, hp, he, hhit, fun q _ hmin => ?_⟩
      have := hmin p hmem hhit
      rw [he]
      exact this
    | assertFailed => rw [hb] at hc; simp at hc
    | nullDeref => rw [hb] at hc; simp at hc
    | fuelOut => rw [hb] at hc; simp at hc

theorem reported_hits_genuine_witness :
    ∃ res, Intersect narrowBoxWorld
        { root := .mk (some (1, 11)) (.mk (some (1, 1)) .nullptr .nullptr (some segA))
            (.mk (some (11, 11)) .nullptr .nullptr (some segB)) none,
          maxPrimsInNode := 255, splitMethod := .SAH, primitives := [segA, segB] }
        (downRay 11) = some res ∧
      (res.happened = true →
        ∃ p ∈ [segA, segB],
          AcceptedLeaf narrowBoxWorld (downRay 11) p
            (.mk (some (1, 11)) (.mk (some (1, 1)) .nullptr .nullptr (some segA))
              (.mk (some (11, 11)) .nullptr .nullptr (some segB)) none) ∧
          res = narrowBoxWorld.getIntersection p (downRay 11) ∧
          hits narrowBoxWorld (downRay 11) p = true ∧
          ∀ q ∈ [segA, segB],
            (∀ q2 ∈ [segA, segB], hits narrowBoxWorld (downRay 11) q2 = true →
              narrowBoxWorld.lt (hitDist narrowBoxWorld (downRay 11) q2)
                (hitDist narrowBoxWorld (downRay 11) q) = false) →
            narrowBoxWorld.lt res.distance (hitDist narrowBoxWorld (downRay 11) q) = false) :=
  reported_hits_genuine narrowBoxWorld (segCollab_sortPermutes _ _ _) [segA, segB]
    (downRay 11) .SAH 2 255 _ (by decide)

/-! ## The accelerated query against brute force -/

/-- The answer of `Intersect` on an accelerator whose root was built from
`objs`, under the contracts of the collaborators. -/
theorem Intersect_nearest_of_built {C : Collab Obj Box F M} {objs : List Obj} {ray : Ray F}
    {sm : SplitMethod} {fuel : Nat} {root : BVHBuildNode Obj Box}
    (hs : SortPermutes C) (hmono : BoxTestMonotone C ray)
    (hbox : BoxEnclosesHit C ray objs) (hmiss : MissNotNearer C ray objs)
    (hord : HitOrder C ray objs)
    (hb : recursiveBuild C sm fuel objs = .ok root) (m : Int) :
    ∃ res, Intersect C (⟨root, min 255 m, sm, objs⟩ : BVHAccel Obj Box) ray = some res ∧
      (res.happened = true ↔ ∃ p ∈ objs, hits C ray p = true) ∧
      (res.happened = true →
        ∃ p ∈ objs, hits C ray p = true ∧ res = C.getIntersection p ray ∧
          ∀ q ∈ objs, hits C ray q = true → C.lt (hitDist C ray q) res.distance = false) := by
  obtain ⟨ls, hbuilt, hperm⟩ := recursiveBuild_built C sm fuel objs root hb
  have hp := hperm hs
  obtain ⟨res, hres, hA, hB⟩ :=
    hbuilt.getIntersection_nearest hmono hbox hmiss hord (fun p h => hp.subset h)
  refine ⟨res, ?_, ⟨fun h => ?_, fun h => ?_⟩, fun h => ?_⟩
  · simp [Intersect, hbuilt.isNull, hres]
  · obtain ⟨p, hpm, hph, _⟩ := hA h
    exact ⟨p, hp.subset hpm, hph⟩
  · obtain ⟨p, hpm, hph⟩ := h
    cases hh : res.happened
    · have := (hB hh).1 p (hp.symm.subset hpm)
      rw [hph] at this
      exact absurd this (by simp)
    · rfl
  · obtain ⟨p, hpm, hph, hpe, hmin⟩ := hA h
    exact ⟨p, hp.subset hpm, hph, hpe, fun q hq => hmin q (hp.symm.subset hq)⟩

theorem construct_of_build {C : Collab Obj Box F M} {objs : List Obj} {sm : SplitMethod}
    {fuel : Nat} {root : BVHBuildNode Obj Box} (hne : objs ≠ [])
    (hb : recursiveBuild C sm fuel objs = .ok root) (m : Int) :
    BVHAccel.construct C fuel objs m sm =
      .ok (⟨root, min 255 m, sm, objs⟩ : BVHAccel Obj Box) := by
  unfold BVHAccel.construct
  have : objs.isEmpty = false := by
    cases objs with
    | nil => exact absurd rfl hne
    | cons a l => rfl
  simp [this, hb]

/-- C20: with the median policy, on every non-empty sequence (fuel at least
its length), construction returns and, under (i) monotonicity of the box
test under union, (ii) acceptance of the bounds of every hit primitive,
(iii) no miss record nearer than a hit, with `<` a strict weak order on the
hit distances and `std::sort` rearranging, `Intersect` reports a hit if and
only if some primitive is hit, and then returns the record of a hit
primitive than which none is nearer.  Without (iii) this fails: in
`zeroMissWorld` all the other hypotheses hold for `[segBack, segC]` and the
ray from abscissa 5, `segC` is hit, and `Intersect` reports no hit. -/
theorem median_equals_brute_force :
    (∀ (O Bx N I : Type) (C : Collab O Bx N I) (objs : List O) (ray : Ray N)
        (fuel : Nat) (m : Int),
      objs ≠ [] → objs.length ≤ fuel → SortPermutes C → BoxTestMonotone C ray →
      BoxEnclosesHit C ray objs → MissNotNearer C ray objs → HitOrder C ray objs →
      ∃ acc res, BVHAccel.construct C fuel objs m .NAIVE = .ok acc ∧
        Intersect C acc ray = some res ∧
        (res.happened = true ↔ ∃ p ∈ objs, hits C ray p = true) ∧
        (res.happened = true →
          ∃ p ∈ objs, hits C ray p = true ∧ res = C.getIntersection p ray ∧
            ∀ q ∈ objs, hits C ray q = true →
              C.lt (hitDist C ray q) res.distance = false)) ∧
    (SortPermutes zeroMissWorld ∧ BoxTestMonotone zeroMissWorld (downRay 5) ∧
      BoxEnclosesHit zeroMissWorld (downRay 5) [segBack, segC] ∧
      HitOrder zeroMissWorld (downRay 5) [segBack, segC] ∧
      ¬ MissNotNearer zeroMissWorld (downRay 5) [segBack, segC] ∧
      hits zeroMissWorld (downRay 5) segC = true ∧
      ∃ acc res, BVHAccel.construct zeroMissWorld 2 [segBack, segC] 255 .NAIVE = .ok acc ∧
        Intersect zeroMissWorld acc (downRay 5) = some res ∧ res.happened = false) := by
  constructor
  · intro O Bx N I C objs ray fuel m hne hlen hs hmono hbox hmiss hord
    obtain ⟨root, hb⟩ := naive_terminates C hs fuel objs hne hlen
    obtain ⟨res, hres, h1, h2⟩ := Intersect_nearest_of_built hs hmono hbox hmiss hord hb m
    exact ⟨_, res, construct_of_build hne hb m, hres, h1, h2⟩
  · refine ⟨segCollab_sortPermutes _ _ _, segCollab_boxTestMonotone _ _ _ _,
      by unfold BoxEnclosesHit; decide, segCollab_hitOrder _ _ _ _ _,
      by unfold MissNotNearer; decide, by decide,
      { root := .mk (some (0, 12)) (segLeaf segBack) (segLeaf segC) none,
        maxPrimsInNode := 255, splitMethod := .NAIVE, primitives := [segBack, segC] },
      { happened := false, distance := 0, info := none }, by decide, by decide, rfl⟩

theorem median_equals_brute_force_witness :
    ∃ acc res, BVHAccel.construct segWorld 4 [segA, segB, segC, segD] 255 .NAIVE = .ok acc ∧
      Intersect segWorld acc (downRay 5) = some res ∧
      (res.happened = true ↔
        ∃ p ∈ [segA, segB, segC, segD], hits segWorld (downRay 5) p = true) ∧
      (res.happened = true →
        ∃ p ∈ [segA, segB, segC, segD], hits segWorld (downRay 5) p = true ∧
          res = segWorld.getIntersection p (downRay 5) ∧
          ∀ q ∈ [segA, segB, segC, segD], hits segWorld (downRay 5) q = true →
            segWorld.lt (hitDist segWorld (downRay 5) q) res.distance = false) :=
  median_equals_brute_force.1 _ _ _ _ segWorld [segA, segB, segC, segD] (downRay 5) 4 255
    (by decide) (by decide) (segCollab_sortPermutes _ _ _)
    (segCollab_boxTestMonotone _ _ _ _) (by unfold BoxEnclosesHit; decide)
    (by unfold MissNotNearer; decide) (segCollab_hitOrder _ _ _ _ _)

/-! ## The shape of the median tree -/

theorem joinChildren_measures {C : Collab Obj Box F M} {sm : SplitMethod} {fuel : Nat}
    {xs ys : List Obj} {t : BVHBuildNode Obj Box}
    (h : joinChildren C (recursiveBuild C sm fuel xs) (recursiveBuild C sm fuel ys) = .ok t) :
    ∃ l r, recursiveBuild C sm fuel xs = .ok l ∧ recursiveBuild C sm fuel ys = .ok r ∧
      height t = max (height l) (height r) + 1 ∧
      leafCount t = leafCount l + leafCount r ∧
      internalCount t = internalCount l + internalCount r + 1 ∧
      leafObjects t = leafObjects l ++ leafObjects r := by
  obtain ⟨l, r, lb, rb, hl, hr, _, _, ht⟩ := joinChildren_ok h
  obtain ⟨ls, bl, _⟩ := recursiveBuild_built C sm fuel xs l hl
  subst ht
  exact ⟨l, r, hl, hr, by simp [height, bl.isNull], by simp [leafCount, bl.isNull],
    by simp [internalCount, bl.isNull], by simp [leafObjects, bl.isNull]⟩

theorem clog_halves (n : Nat) (h2 : 2 ≤ n) :
    max (Nat.clog 2 (n / 2)) (Nat.clog 2 (n - n / 2)) + 1 = Nat.clog 2 n := by
  have hle : Nat.clog 2 (n / 2) ≤ Nat.clog 2 (n - n / 2) :=
    Nat.clog_mono_right 2 (by omega)
  rw [Nat.max_eq_right hle, Nat.clog_of_two_le (by decide) h2]
  have : (n + 2 - 1) / 2 = n - n / 2 := by omega
  rw [this]

/-- The tree the median build returns for `n` primitives has height
`clog 2 n`, `n` leaves and `n - 1` other nodes. -/
theorem naive_measures (C : Collab Obj Box F M) (hs : SortPermutes C) :
    ∀ (fuel : Nat) (objects : List Obj) (t : BVHBuildNode Obj Box), objects ≠ [] →
      recursiveBuild C .NAIVE fuel objects = .ok t →
      height t = Nat.clog 2 objects.length ∧ leafCount t = objects.length ∧
        internalCount t + 1 = objects.length := by
  intro fuel
  induction fuel with
  | zero => intro objects t _ h; simp [recursiveBuild_zero] at h
  | succ fuel ih =>
    intro objects t hne h
    have key : ∀ (xs ys : List Obj), xs ≠ [] → ys ≠ [] →
        xs.length = (xs.length + ys.length) / 2 →
        joinChildren C (recursiveBuild C .NAIVE fuel xs) (recursiveBuild C .NAIVE fuel ys) =
          .ok t →
        height t = Nat.clog 2 (xs.length + ys.length) ∧
          leafCount t = xs.length + ys.length ∧
          internalCount t + 1 = xs.length + ys.length := by
      intro xs ys hx hy hhalf hj
      obtain ⟨l, r, hl, hr, e1, e2, e3, _⟩ := joinChildren_measures hj
      obtain ⟨a1, a2, a3⟩ := ih xs l hx hl
      obtain ⟨b1, b2, b3⟩ := ih ys r hy hr
      have hxpos : 0 < xs.length := List.length_pos.mpr hx
      have hypos : 0 < ys.length := List.length_pos.mpr hy
      refine ⟨?_, by omega, by omega⟩
      rw [e1, a1, b1]
      have := clog_halves (xs.length + ys.length) (by omega)
      rw [← hhalf] at this
      rw [show xs.length + ys.length - xs.length = ys.length by omega] at this
      exact this
    match objects, hne, h with
    | [o], _, h =>
      rw [recursiveBuild_single] at h
      injection h with h
      subst h
      simp [height, leafCount, internalCount, BVHBuildNode.isNull]
    | [a, b], _, h =>
      rw [recursiveBuild_pair] at h
      exact key [a] [b] (by simp) (by simp) (by simp) h
    | a :: b :: c :: rest, _, h =>
      rw [recursiveBuild_many, splitBuild, splitIndex_naive] at h
      have hn : (sortedObjects C (a :: b :: c :: rest)).length = rest.length + 3 := by
        rw [sortedObjects_length hs]; simp
      have ht : ((sortedObjects C (a :: b :: c :: rest)).take
          ((sortedObjects C (a :: b :: c :: rest)).length / 2)).length =
          (rest.length + 3) / 2 := by
        rw [List.length_take, hn]; omega
      have hd : ((sortedObjects C (a :: b :: c :: rest)).drop
          ((sortedObjects C (a :: b :: c :: rest)).length / 2)).length =
          rest.length + 3 - (rest.length + 3) / 2 := by
        rw [List.length_drop, hn]
      have := key _ _
        (by intro e; rw [e] at ht; simp at ht; omega)
        (by intro e; rw [e] at hd; simp at hd; omega)
        (by rw [ht, hd]; omega) h
      rw [ht, hd] at this
      have e : (rest.length + 3) / 2 + (rest.length + 3 - (rest.length + 3) / 2) =
          (a :: b :: c :: rest).length := by
        simp only [List.length_cons]; omega
      rw [e] at this
      exact this

/-- C17: with the median policy the build of a non-empty sequence of `n`
primitives returns, and the returned tree has height `clog 2 n`, that is
height `0` for `n = 1` and `2 ^ (h - 1) < n ≤ 2 ^ h` for `n ≥ 2`, with `n`
leaves and `n - 1` internal nodes, whatever the primitives are. -/
theorem median_balanced (C : Collab Obj Box F M) (hs : SortPermutes C)
    (objects : List Obj) (hne : objects ≠ []) :
    (∃ t, recursiveBuild C .NAIVE objects.length objects = .ok t) ∧
    ∀ fuel t, recursiveBuild C .NAIVE fuel objects = .ok t →
      height t = Nat.clog 2 objects.length ∧
      (objects.length = 1 → height t = 0) ∧
      (2 ≤ objects.length →
        2 ^ (height t - 1) < objects.length ∧ objects.length ≤ 2 ^ height t) ∧
      leafCount t = objects.length ∧ internalCount t = objects.length - 1 := by
  refine ⟨naive_terminates C hs _ objects hne (le_refl _), fun fuel t h => ?_⟩
  obtain ⟨h1, h2, h3⟩ := naive_measures C hs fuel objects t hne h
  refine ⟨h1, fun e => ?_, fun e => ?_, h2, by omega⟩
  · rw [h1, e]; exact Nat.clog_one_right 2
  · rw [h1]
    exact ⟨Nat.pow_pred_clog_lt_self (by decide) (by omega), Nat.le_pow_clog (by decide) _⟩

theorem median_balanced_witness :
    recursiveBuild segWorld .NAIVE 3 [segA, segB, segC] = .ok segTree3 ∧
    height segTree3 = 2 ∧ leafCount segTree3 = 3 ∧ internalCount segTree3 = 2 :=
  ⟨by decide,
   ((median_balanced segWorld (segCollab_sortPermutes _ _ _) [segA, segB, segC]
      (by decide)).2 3 segTree3 (by decide)).1.trans (by simp [Nat.clog]),
   by decide, by decide⟩

/-! ## The sorted partition -/

theorem orderedInsert_pairwise {α : Type} (r : α → α → Prop) [DecidableRel r]
    (S : α → Prop) (htot : ∀ x y, S x → S y → r x y ∨ r y x)
    (htr : ∀ x y z, S x → S y → S z → r x y → r y z → r x z) (a : α) (ha : S a) :
    ∀ l : List α, (∀ x ∈ l, S x) → l.Pairwise r → (l.orderedInsert r a).Pairwise r := by
  intro l
  induction l with
  | nil => intro _ _; simp
  | cons b l ih =>
    intro hS hl
    have hb : S b := hS b (by simp)
    have hSl : ∀ x ∈ l, S x := fun x hx => hS x (List.mem_cons_of_mem _ hx)
    rw [List.pairwise_cons] at hl
    by_cases hab : r a b
    · rw [List.orderedInsert, if_pos hab]
      refine List.pairwise_cons.mpr ⟨fun x hx => ?_, List.pairwise_cons.mpr hl⟩
      rcases List.mem_cons.mp hx with rfl | hx
      · exact hab
      · exact htr a b x ha hb (hSl x hx) hab (hl.1 x hx)
    · rw [List.orderedInsert, if_neg hab]
      have hba : r b a := (htot a b ha hb).resolve_left hab
      refine List.pairwise_cons.mpr ⟨fun x hx => ?_, ih hSl hl.2⟩
      rcases (List.mem_orderedInsert r).mp hx with rfl | hx
      · exact hba
      · exact hl.1 x hx

theorem insertionSort_pairwise {α : Type} (r : α → α → Prop) [DecidableRel r]
    (S : α → Prop) (htot : ∀ x y, S x → S y → r x y ∨ r y x)
    (htr : ∀ x y z, S x → S y → S z → r x y → r y z → r x z) :
    ∀ l : List α, (∀ x ∈ l, S x) → (l.insertionSort r).Pairwise r := by
  intro l
  induction l with
  | nil => intro _; simp
  | cons a l ih =>
    intro hS
    rw [List.insertionSort]
    refine orderedInsert_pairwise r S htot htr a (hS a (by simp)) _ ?_
      (ih (fun x hx => hS x (List.mem_cons_of_mem _ hx)))
    intro x hx
    exact hS x (List.mem_cons_of_mem _ ((List.mem_insertionSort r).mp hx))

/-- Insertion sort meets the contract of `std::sort`. -/
theorem insertionSort_sorts {α : Type} (cmp : α → α → Bool) (l : List α)
    (h : StrictWeakOn cmp l) :
    (l.insertionSort (fun a b => cmp b a = false)).Pairwise (fun p q => cmp q p = false) := by
  obtain ⟨hirr, htr, hneg⟩ := h
  refine insertionSort_pairwise (fun a b => cmp b a = false) (fun x => x ∈ l) ?_ ?_ l
    (fun x hx => hx)
  · intro x y hx hy
    cases hyx : cmp y x
    · exact Or.inl hyx
    · refine Or.inr ?_
      cases hxy : cmp x y
      · exact hxy
      · have := htr y hy x hx y hy hyx hxy
        rw [hirr y hy] at this
        exact absurd this (by simp)
  · intro x y z hx hy hz h1 h2
    exact hneg z hz y hy x hx h2 h1

theorem wireCollab_sortSorts (missDist : Int) : SortSorts (wireCollab missDist) :=
  fun cmp l h => insertionSort_sorts cmp l h

theorem fpWorld_sortSorts : SortSorts fpWorld :=
  fun cmp l h => insertionSort_sorts cmp l h

/-- For an axis, the `switch` sorts with the comparator of that axis. -/
theorem sortObjects_eq_sort (C : Collab Obj Box F M) (dim : Int) (l : List Obj)
    (hd : dim = 0 ∨ dim = 1 ∨ dim = 2) :
    sortObjects C dim l = C.sort (axisCmp C dim) l := by
  rcases hd with h | h | h <;> subst h <;> rfl

/-- The sequence after the `switch` is sorted on the axis `maxExtent` chose. -/
theorem sortedObjects_pairwise {C : Collab Obj Box F M} (hsorted : SortSorts C)
    (objects : List Obj)
    (hd : C.maxExtent (centroidUnion C objects) = 0 ∨
      C.maxExtent (centroidUnion C objects) = 1 ∨
      C.maxExtent (centroidUnion C objects) = 2)
    (hcmp : StrictWeakOn (axisCmp C (C.maxExtent (centroidUnion C objects))) objects) :
    (sortedObjects C objects).Pairwise
      (fun p q => C.lt (centroidCoord C (C.maxExtent (centroidUnion C objects)) q)
        (centroidCoord C (C.maxExtent (centroidUnion C objects)) p) = false) := by
  rw [sortedObjects, sortObjects_eq_sort C _ objects hd]
  exact hsorted _ objects hcmp

theorem wireCollab_sortPermutes (missDist : Int) : SortPermutes (wireCollab missDist) := by
  intro cmp l
  exact List.perm_insertionSort _ l

/-- The two children of a returned build of three or more primitives hold
rearrangements of a part of the sorted sequence and of the rest. -/
theorem split_children {C : Collab Obj Box F M} (hs : SortPermutes C) {sm : SplitMethod}
    {fuel : Nat} {objects : List Obj} {t : BVHBuildNode Obj Box}
    (h3 : 3 ≤ objects.length) (h : recursiveBuild C sm fuel objects = .ok t) :
    ∃ b l r o mid, t = .mk b l r o ∧
      splitIndex C sm (centroidUnion C objects) (sortedObjects C objects) = some mid ∧
      List.Perm (leafObjects l) ((sortedObjects C objects).take mid) ∧
      List.Perm (leafObjects r) ((sortedObjects C objects).drop mid) := by
  cases fuel with
  | zero => simp [recursiveBuild_zero] at h
  | succ fuel =>
    rw [recursiveBuild_of_three_le C sm fuel objects h3, splitBuild] at h
    cases hsi : splitIndex C sm (centroidUnion C objects) (sortedObjects C objects) with
    | none => rw [hsi] at h; simp at h
    | some mid =>
      rw [hsi] at h
      obtain ⟨l, r, lb, rb, hl, hr, _, _, ht⟩ := joinChildren_ok h
      obtain ⟨ls, bl, pl⟩ := recursiveBuild_built C sm fuel _ l hl
      obtain ⟨rs, br, pr⟩ := recursiveBuild_built C sm fuel _ r hr
      refine ⟨_, l, r, _, mid, ht, rfl, ?_, ?_⟩
      · rw [bl.leafObjects_eq]; exact pl hs
      · rw [br.leafObjects_eq]; exact pr hs

/-- C16: for every build call on three or more primitives that returns
(either policy), with `d` the axis returned by `maxExtent` for the centroid
region, the left and right subtrees hold a part of the sequence sorted on
`d` and the rest of it, and no primitive of the right subtree has a
centroid coordinate on `d` below that of a primitive of the left subtree.
Assumed: `std::sort` rearranges and meets its contract, and `<` is a strict
weak ordering of the centroid coordinates on `d` of the input. -/
theorem sorted_partition (C : Collab Obj Box F M) (hs : SortPermutes C)
    (hsorted : SortSorts C) (sm : SplitMethod) (fuel : Nat) (objects : List Obj)
    (t : BVHBuildNode Obj Box) (h3 : 3 ≤ objects.length)
    (hd : C.maxExtent (centroidUnion C objects) = 0 ∨
      C.maxExtent (centroidUnion C objects) = 1 ∨
      C.maxExtent (centroidUnion C objects) = 2)
    (hcmp : StrictWeakOn (axisCmp C (C.maxExtent (centroidUnion C objects))) objects)
    (h : recursiveBuild C sm fuel objects = .ok t) :
    ∃ b l r o mid, t = .mk b l r o ∧
      List.Perm (leafObjects l) ((sortedObjects C objects).take mid) ∧
      List.Perm (leafObjects r) ((sortedObjects C objects).drop mid) ∧
      ∀ p ∈ leafObjects l, ∀ q ∈ leafObjects r,
        C.lt (centroidCoord C (C.maxExtent (centroidUnion C objects)) q)
          (centroidCoord C (C.maxExtent (centroidUnion C objects)) p) = false := by
  obtain ⟨b, l, r, o, mid, ht, _, pl, pr⟩ := split_children hs h3 h
  refine ⟨b, l, r, o, mid, ht, pl, pr, fun p hp q hq => ?_⟩
  have hpw := sortedObjects_pairwise hsorted objects hd hcmp
  rw [← List.take_append_drop mid (sortedObjects C objects)] at hpw
  exact (List.pairwise_append.mp hpw).2.2 p (pl.subset hp) q (pr.subset hq)

theorem sorted_partition_witness :
    fpWorld.maxExtent (centroidUnion fpWorld yDots) = 1 ∧
    leafObjects (treeOf (recursiveBuild fpWorld .SAH 3 yDots)) =
      [⟨0, 1, 0⟩, ⟨1, 3, 0⟩, ⟨0, 5, 0⟩] ∧
    ∃ b l r o mid, treeOf (recursiveBuild fpWorld .SAH 3 yDots) = .mk b l r o ∧
      List.Perm (leafObjects l) ((sortedObjects fpWorld yDots).take mid) ∧
      List.Perm (leafObjects r) ((sortedObjects fpWorld yDots).drop mid) ∧
      ∀ p ∈ leafObjects l, ∀ q ∈ leafObjects r,
        fpWorld.lt
          (centroidCoord fpWorld (fpWorld.maxExtent (centroidUnion fpWorld yDots)) q)
          (centroidCoord fpWorld (fpWorld.maxExtent (centroidUnion fpWorld yDots)) p) =
          false :=
  ⟨by decide, by decide,
   sorted_partition fpWorld fpWorld_sortPermutes fpWorld_sortSorts .SAH 3 yDots
    (treeOf (recursiveBuild fpWorld .SAH 3 yDots)) (by decide) (by decide)
    (by unfold StrictWeakOn; decide) (by decide)⟩

/-! ## Three primitives along the x axis -/

/-- The median build of three primitives, in terms of the sorted sequence. -/
theorem recursiveBuild_three (C : Collab Obj Box F M) (fuel : Nat) (a b c s0 s1 s2 : Obj)
    (hsort : sortedObjects C [a, b, c] = [s0, s1, s2]) :
    recursiveBuild C .NAIVE (fuel + 3) [a, b, c] =
      .ok (.mk (C.Union (C.getBounds s0) (C.Union (C.getBounds s1) (C.getBounds s2)))
        (.mk (C.getBounds s0) .nullptr .nullptr (some s0))
        (.mk (C.Union (C.getBounds s1) (C.getBounds s2))
          (.mk (C.getBounds s1) .nullptr .nullptr (some s1))
          (.mk (C.getBounds s2) .nullptr .nullptr (some s2)) none) none) := by
  have hpair : recursiveBuild C .NAIVE (fuel + 2) [s1, s2] =
      .ok (.mk (C.Union (C.getBounds s1) (C.getBounds s2))
        (.mk (C.getBounds s1) .nullptr .nullptr (some s1))
        (.mk (C.getBounds s2) .nullptr .nullptr (some s2)) none) := rfl
  have hone : recursiveBuild C .NAIVE (fuel + 2) [s0] =
      .ok (.mk (C.getBounds s0) .nullptr .nullptr (some s0)) := rfl
  rw [recursiveBuild_many, splitBuild, hsort, splitIndex_naive]
  have h1 : ([s0, s1, s2] : List Obj).take ([s0, s1, s2].length / 2) = [s0] := by simp
  have h2 : ([s0, s1, s2] : List Obj).drop ([s0, s1, s2].length / 2) = [s1, s2] := by simp
  show joinChildren C
      (recursiveBuild C .NAIVE (fuel + 2) (([s0, s1, s2] : List Obj).take ([s0, s1, s2].length / 2)))
      (recursiveBuild C .NAIVE (fuel + 2) (([s0, s1, s2] : List Obj).drop ([s0, s1, s2].length / 2))) = _
  rw [h1, h2, hpair, hone]
  rfl

/-- The median tree over three primitives for which `maxExtent` chooses the
x axis has depth 2: with `[s0, s1, s2]` the sequence sorted on centroid x,
the root's left child is the leaf of `s0` (no centroid x is below that of
`s0`) and the root's right child is an internal node over the leaves of `s1`
and `s2`. -/
theorem three_primitives_shape (C : Collab Obj Box F M) (a b c : Obj)
    (fuel : Nat) (m : Int) (hs : SortPermutes C) (hsorted : SortSorts C)
    (hdim : C.maxExtent (centroidUnion C [a, b, c]) = 0)
    (hcmp : StrictWeakOn (axisCmp C 0) [a, b, c]) :
    ∃ s0 s1 s2 acc,
      sortedObjects C [a, b, c] = [s0, s1, s2] ∧ List.Perm [s0, s1, s2] [a, b, c] ∧
      C.lt (C.Centroid (C.getBounds s1)).x (C.Centroid (C.getBounds s0)).x = false ∧
      C.lt (C.Centroid (C.getBounds s2)).x (C.Centroid (C.getBounds s0)).x = false ∧
      C.lt (C.Centroid (C.getBounds s2)).x (C.Centroid (C.getBounds s1)).x = false ∧
      BVHAccel.construct C (fuel + 3) [a, b, c] m .NAIVE = .ok acc ∧
      acc.root =
        .mk (C.Union (C.getBounds s0) (C.Union (C.getBounds s1) (C.getBounds s2)))
          (.mk (C.getBounds s0) .nullptr .nullptr (some s0))
          (.mk (C.Union (C.getBounds s1) (C.getBounds s2))
            (.mk (C.getBounds s1) .nullptr .nullptr (some s1))
            (.mk (C.getBounds s2) .nullptr .nullptr (some s2)) none) none ∧
      height acc.root = 2 := by
  have hperm := sortedObjects_perm hs [a, b, c]
  have hlen : (sortedObjects C [a, b, c]).length = 3 := hperm.length_eq
  obtain ⟨s0, s1, s2, hsort⟩ : ∃ s0 s1 s2, sortedObjects C [a, b, c] = [s0, s1, s2] := by
    match hl : sortedObjects C [a, b, c], hlen with
    | [x, y, z], _ => exact ⟨x, y, z, rfl⟩
  have hpw := sortedObjects_pairwise hsorted [a, b, c] (Or.inl hdim) (by rw [hdim]; exact hcmp)
  rw [hsort, hdim] at hpw
  simp only [List.pairwise_cons, List.mem_cons, List.mem_singleton, forall_eq_or_imp,
    forall_eq, centroidCoord, axisCoord, if_true, List.not_mem_nil, false_implies,
    implies_true, and_true, List.Pairwise.nil] at hpw
  have hb := recursiveBuild_three C fuel a b c s0 s1 s2 hsort
  refine ⟨s0, s1, s2, _, hsort, hsort ▸ hperm, hpw.1.1, hpw.1.2, hpw.2,
    construct_of_build (by simp) hb m, rfl, ?_⟩
  simp [height, BVHBuildNode.isNull]

theorem three_primitives_shape_wire :
    ∃ acc, BVHAccel.construct wireWorld 3 [beadC, beadA, beadB] 255 .NAIVE = .ok acc ∧
      acc.root = .mk (some (0, 9)) (beadLeaf beadA)
        (.mk (some (4, 9)) (beadLeaf beadB) (beadLeaf beadC) none) none ∧
      height acc.root = 2 := by
  obtain ⟨s0, s1, s2, acc, hsort, _, _, _, _, hc, hroot, hh⟩ :=
    three_primitives_shape wireWorld beadC beadA beadB 0 255 (wireCollab_sortPermutes _)
      (wireCollab_sortSorts _) rfl (by unfold StrictWeakOn; decide)
  have e : sortedObjects wireWorld [beadC, beadA, beadB] = [beadA, beadB, beadC] := by decide
  rw [e] at hsort
  injection hsort with h0 hsort
  injection hsort with h1 hsort
  injection hsort with h2 _
  subst h0 h1 h2
  exact ⟨acc, hc, hroot, hh⟩

/-- C11, the code at the failing input: in `zeroMissWire` the three beads
have disjoint boxes spread along x with centroids differing only along x,
the ray from abscissa -1 crosses all three boxes, the median tree has the
claimed shape, and the brute-force nearest hit is `beadB` at distance 5;
yet `Intersect` reports no hit: at the root the left child returns the miss
record of `beadGlass` with distance `0`, the right child a hit at distance
5, and line 164 tests `!hitRight.happened` but not `!hitLeft.happened`. -/
theorem three_beads_hit_lost :
    (beadGlass.hi < beadB.lo ∧ beadB.hi < beadC.lo) ∧
    (∀ p ∈ [beadC, beadGlass, beadB],
      (zeroMissWire.Centroid (zeroMissWire.getBounds p)).y = 0 ∧
      (zeroMissWire.Centroid (zeroMissWire.getBounds p)).z = 0 ∧
      accepts zeroMissWire (wireRay (-1)) (zeroMissWire.getBounds p) = true) ∧
    zeroMissWire.maxExtent (centroidUnion zeroMissWire [beadC, beadGlass, beadB]) = 0 ∧
    sortedObjects zeroMissWire [beadC, beadGlass, beadB] = [beadGlass, beadB, beadC] ∧
    zeroMissWire.getIntersection beadB (wireRay (-1)) =
      { happened := true, distance := 5, info := some beadB } ∧
    (∀ q ∈ [beadC, beadGlass, beadB], hits zeroMissWire (wireRay (-1)) q = true →
      zeroMissWire.lt (hitDist zeroMissWire (wireRay (-1)) q) 5 = false) ∧
    ∃ acc res,
      BVHAccel.construct zeroMissWire 3 [beadC, beadGlass, beadB] 255 .NAIVE = .ok acc ∧
      acc.root = .mk (some (0, 9)) (beadLeaf beadGlass)
        (.mk (some (4, 9)) (beadLeaf beadB) (beadLeaf beadC) none) none ∧
      height acc.root = 2 ∧
      getIntersection zeroMissWire (beadLeaf beadGlass) (wireRay (-1)) =
        some { happened := false, distance := 0, info := none } ∧
      getIntersection zeroMissWire
        (.mk (some (4, 9)) (beadLeaf beadB) (beadLeaf beadC) none) (wireRay (-1)) =
        some { happened := true, distance := 5, info := some beadB } ∧
      Intersect zeroMissWire acc (wireRay (-1)) = some res ∧ res.happened = false :=
  ⟨by decide, by decide, by decide, by decide, by decide, by decide,
   { root := .mk (some (0, 9)) (beadLeaf beadGlass)
       (.mk (some (4, 9)) (beadLeaf beadB) (beadLeaf beadC) none) none,
     maxPrimsInNode := 255, splitMethod := .NAIVE,
     primitives := [beadC, beadGlass, beadB] },
   { happened := false, distance := 0, info := none }, by decide, rfl, by decide,
   by decide, by decide, by decide, rfl⟩

end BVH
